import Mathlib

/-!
Verification of the date-scoped workout aggregation and mutation layer of the
lifting-diary repository.  The TypeScript source is shallowly embedded: pure
helpers become Lean functions, database queries become list operations over an
explicit database state, and JavaScript `Date` values are modelled by their
local calendar fields together with the host UTC offset.
-/

/-! ## Calendar dates (the local-field view of a JS `Date`) -/

/-- Gregorian leap-year test, as used by JS date arithmetic. -/

def isLeapYear (y : Int) : Bool :=
  (y % 4 == 0 && y % 100 != 0) || y % 400 == 0

/-- Number of days in month `m` (1-based) of year `y`. -/
def daysInMonth (y : Int) (m : Nat) : Nat :=
  if m = 2 then (if isLeapYear y then 29 else 28)
  else if m = 4 ∨ m = 6 ∨ m = 9 ∨ m = 11 then 30
  else 31

/-- Calendar date: the (local) year / month (1-12) / day (1-31) fields of a
JS `Date`.  `getFullYear`, `getMonth`+1 and `getDate` project these fields. -/
structure CivilDate where
  year : Int
  month : Nat
  day : Nat
deriving DecidableEq, Repr

/-- Predicate singling out well-formed calendar dates. -/
def validCivilDate (c : CivilDate) : Prop :=
  1 ≤ c.month ∧ c.month ≤ 12 ∧ 1 ≤ c.day ∧ c.day ≤ daysInMonth c.year c.month

instance (c : CivilDate) : Decidable (validCivilDate c) := by
  unfold validCivilDate; infer_instance

/-- Successor day in the Gregorian calendar. -/
def nextDay (c : CivilDate) : CivilDate :=
  if c.day < daysInMonth c.year c.month then ⟨c.year, c.month, c.day + 1⟩
  else if c.month < 12 then ⟨c.year, c.month + 1, 1⟩
  else ⟨c.year + 1, 1, 1⟩

/-- Predecessor day in the Gregorian calendar. -/
def prevDay (c : CivilDate) : CivilDate :=
  if 1 < c.day then ⟨c.year, c.month, c.day - 1⟩
  else if 1 < c.month then ⟨c.year, c.month - 1, daysInMonth c.year (c.month - 1)⟩
  else ⟨c.year - 1, 12, 31⟩

/-- Shift a calendar date by a signed number of days. -/
def addDays (c : CivilDate) (n : Int) : CivilDate :=
  if 0 ≤ n then nextDay^[n.toNat] c else prevDay^[(-n).toNat] c

/-! ## Decimal numerals, exactly as JS stringifies / parses them -/

/-- Character for a single decimal digit. -/
def digitChar : Nat → Char
  | 0 => '0' | 1 => '1' | 2 => '2' | 3 => '3' | 4 => '4'
  | 5 => '5' | 6 => '6' | 7 => '7' | 8 => '8' | _ => '9'

/-- Fuel-driven most-significant-first decimal digits of a natural number.
Structural recursion on the fuel keeps the definition kernel-reducible. -/
def natToDigitsAux : Nat → Nat → List Char
  | 0, _ => []
  | fuel + 1, n => if n < 10 then [digitChar n]
      else natToDigitsAux fuel (n / 10) ++ [digitChar (n % 10)]

/-- Decimal digits of `n`, as JS `String(n)` produces for a non-negative
integer. -/
def natToDigits (n : Nat) : List Char := natToDigitsAux (n + 1) n

/-- Decimal string of a JS integer (template-literal stringification). -/
def jsIntToDigits (i : Int) : List Char :=
  if i < 0 then '-' :: natToDigits (-i).toNat else natToDigits i.toNat

/-- Value of a most-significant-first list of decimal digit characters. -/
def digitsToNat (l : List Char) : Nat :=
  l.foldl (fun a c => a * 10 + (c.toNat - 48)) 0

/-- JS `Number(s)` restricted to the shapes that occur here: the empty string
is `0`, a string of decimal digits (optionally `-`-signed) is its value, and
anything else is `NaN` (modelled as `none`). -/
def jsNumber (l : List Char) : Option Int :=
  if l = [] then some 0
  else if l.all Char.isDigit then some ((digitsToNat l : Nat) : Int)
  else match l with
    | '-' :: rest =>
        if rest ≠ [] ∧ rest.all Char.isDigit then some (-(digitsToNat rest : Int))
        else none
    | _ => none

/-- JS `String.prototype.padStart(2, '0')`. -/
def padStart2 (l : List Char) : List Char :=
  List.replicate (2 - l.length) '0' ++ l

/-- Splitting a character list at every occurrence of `sep`, the semantics of
JS `String.prototype.split` with a single-character separator. -/
def splitChar (sep : Char) : List Char → List (List Char)
  | [] => [[]]
  | c :: cs =>
      if c = sep then [] :: splitChar sep cs
      else match splitChar sep cs with
        | h :: t => (c :: h) :: t
        | [] => [[c]]

/-! ## `src/lib/date-utils.ts` -/

/-- Embedding of `formatDateForDb`: formats the local calendar fields of a
date as `YYYY-MM-DD` (the year is stringified unpadded, month and day are
zero-padded to two characters). -/
def formatDateForDb (c : CivilDate) : String :=
  String.mk (jsIntToDigits c.year ++ '-' :: padStart2 (natToDigits c.month)
    ++ '-' :: padStart2 (natToDigits c.day))

/-- Semantics of the JS `new Date(year, monthIndex, day)` constructor,
restricted to its calendar outcome: years 0-99 are remapped to 1900-1999,
the month index is normalised into the year, and day overflow/underflow is
carried into adjacent months. -/
def jsDateFieldsCtor (y monthIdx d : Int) : CivilDate :=
  let yr : Int := if 0 ≤ y ∧ y ≤ 99 then y + 1900 else y
  let ym : Int := yr + Int.fdiv monthIdx 12
  let mn : Nat := (Int.fmod monthIdx 12).toNat
  addDays ⟨ym, mn + 1, 1⟩ (d - 1)

/-- Embedding of `parseDateFromDb`: splits on `-`, converts the first three
pieces with `Number`, and builds a date from local fields via the
`new Date(year, month - 1, day)` constructor.  A `NaN` component yields an
invalid date, modelled as `none`. -/
def parseDateFromDb (s : String) : Option CivilDate :=
  let nums := (splitChar '-' s.toList).map jsNumber
  match nums.getD 0 none, nums.getD 1 none, nums.getD 2 none with
  | some y, some m, some d => some (jsDateFieldsCtor y (m - 1) d)
  | _, _, _ => none

/-! ## JS `Date` values with a host timezone (needed for the write path) -/

/-- A JS `Date` as observed by this code base: its local calendar date, its
local time of day in minutes, and the host timezone offset in minutes such
that local time = UTC time + `tzOffsetMinutes`. -/
structure JSDate where
  localDate : CivilDate
  localMinutes : Nat
  tzOffsetMinutes : Int
deriving DecidableEq, Repr

/-- Four-digit zero-padded year digits, as `toISOString` prints years
0-9999. -/
def padYear4 (l : List Char) : List Char :=
  List.replicate (4 - l.length) '0' ++ l

/-- The UTC calendar date underlying a JS `Date`: shift the local date by the
day boundary crossed when removing the timezone offset. -/
def utcDateOf (d : JSDate) : CivilDate :=
  addDays d.localDate (Int.fdiv ((d.localMinutes : Int) - d.tzOffsetMinutes) 1440)

/-- Embedding of `date.toISOString().split("T")[0]` as used by the write
layer: the date part of the ISO string, i.e. the UTC calendar date formatted
as `YYYY-MM-DD`. -/
def toISODatePart (d : JSDate) : String :=
  let u := utcDateOf d
  String.mk (padYear4 (jsIntToDigits u.year) ++ '-' :: padStart2 (natToDigits u.month)
    ++ '-' :: padStart2 (natToDigits u.day))

/-! ## Schema rows (`src/db/schema.ts`) and the database state -/

/-- Row of the `workouts` table. -/
structure WorkoutRow where
  id : Nat
  userId : String
  date : String
  name : Option String
  durationMinutes : Option Int
  notes : Option String
  createdAt : Nat
  updatedAt : Nat
deriving DecidableEq, Repr

/-- Row of the `exercises` table (global catalog, not user-owned). -/
structure ExerciseRow where
  id : Nat
  name : String
  description : Option String
deriving DecidableEq, Repr

/-- Row of the `workout_exercises` junction table. -/
structure WorkoutExerciseRow where
  id : Nat
  workoutId : Nat
  exerciseId : Nat
  order : Int
  notes : Option String
deriving DecidableEq, Repr

/-- Row of the `sets` table.  The `numeric` weight column is modelled by its
rational value. -/
structure SetRow where
  id : Nat
  workoutExerciseId : Nat
  setNumber : Nat
  isBodyweight : Bool
  weight : Option Rat
  reps : Nat
  rpe : Option Nat
  notes : Option String
deriving DecidableEq, Repr

/-- The relational store: the four tables as lists of rows. -/
structure Db where
  workouts : List WorkoutRow
  exercises : List ExerciseRow
  workoutExercises : List WorkoutExerciseRow
  sets : List SetRow
deriving DecidableEq, Repr

/-- Next `serial` primary-key value for the `workouts` table. -/
def nextWorkoutId (db : Db) : Nat :=
  (db.workouts.map (fun w => w.id)).foldr max 0 + 1

/-! ## View objects returned by `getWorkoutsByDate` (`src/data/workouts.ts`) -/

/-- Set view object pushed into an exercise group. -/
structure SetView where
  setNumber : Nat
  weight : Option Rat
  reps : Nat
  rpe : Option Nat
  isBodyweight : Bool
deriving DecidableEq, Repr

/-- Exercise view object held in the insertion-ordered `exercisesMap`. -/
structure ExerciseView where
  id : Nat
  name : String
  sets : List SetView
deriving DecidableEq, Repr

/-- Workout view object returned to the UI.  The source wraps the stored
string in `new Date(workout.date)`; the calendar string itself is kept here,
as no claim concerns that wrapper. -/
structure WorkoutView where
  id : Nat
  name : Option String
  date : String
  durationMinutes : Option Int
  notes : Option String
  exercises : List ExerciseView
deriving DecidableEq, Repr

/-- One flat row of the `workoutExercises ⋈ exercises ⟕ sets` query. -/
structure JoinedRow where
  workoutExercise : WorkoutExerciseRow
  exercise : ExerciseRow
  set : Option SetRow
deriving DecidableEq, Repr

/-- Inner-join with `exercises` and left-join with `sets`, filtered by
`workoutExercises.workoutId = workoutId`, in nested-loop order. -/
def joinRows (db : Db) (workoutId : Nat) : List JoinedRow :=
  (db.workoutExercises.filter (fun we => decide (we.workoutId = workoutId))).flatMap
    (fun we =>
      (db.exercises.filter (fun e => decide (e.id = we.exerciseId))).flatMap
        (fun e =>
          match db.sets.filter (fun s => decide (s.workoutExerciseId = we.id)) with
          | [] => [⟨we, e, none⟩]
          | ms => ms.map (fun s => ⟨we, e, some s⟩)))

/-- Conversion of a set row into its view object (`parseFloat` on the numeric
string is modelled as the identity on the rational value; the only falsy
weight string is absent/`NULL`, modelled as `none`). -/
def mkSetView (s : SetRow) : SetView :=
  ⟨s.setNumber, s.weight, s.reps, s.rpe, s.isBodyweight⟩

/-- Value of `(m.find? key).map value` on an insertion-ordered association
list, the model of `exercisesMap.get(k)` / `exercisesMap.has(k)`. -/
def lookupKey (k : Nat) (m : List (Nat × ExerciseView)) : Option ExerciseView :=
  (m.find? (fun p => decide (p.1 = k))).map (fun p => p.2)

/-- One iteration of the grouping loop: establish the exercise group on first
sight of its `exerciseId`, then push the set view if the left-joined set is
present. -/
def groupStep (m : List (Nat × ExerciseView)) (r : JoinedRow) :
    List (Nat × ExerciseView) :=
  let k := r.workoutExercise.exerciseId
  let m1 := if (lookupKey k m).isSome then m
    else m ++ [(k, ⟨r.exercise.id, r.exercise.name, []⟩)]
  match r.set with
  | none => m1
  | some s =>
      m1.map (fun p => if p.1 = k then (p.1, ⟨p.2.id, p.2.name, p.2.sets ++ [mkSetView s]⟩) else p)

/-- Grouping of the flat joined rows by `exerciseId` (a JS `Map` preserves
insertion order), followed by the in-place ascending `setNumber` sort. -/
def groupRows (rows : List JoinedRow) : List ExerciseView :=
  ((rows.foldl groupStep []).map (fun p => p.2)).map
    (fun ev => ⟨ev.id, ev.name, ev.sets.insertionSort (fun a b => a.setNumber ≤ b.setNumber)⟩)

/-- Embedding of `getWorkoutsByDate`: authorization guard, ownership- and
date-scoped select ordered by `createdAt` descending, one join query per
workout id (`Promise.all` + `find`), and the per-workout grouping. -/
def getWorkoutsByDate (auth : Option String) (date : CivilDate) (db : Db) :
    Except String (List WorkoutView) :=
  match auth with
  | none => .error "Unauthorized"
  | some userId =>
      let dateString := formatDateForDb date
      let userWorkouts :=
        (db.workouts.filter
          (fun w => decide (w.userId = userId) && decide (w.date = dateString))).insertionSort
          (fun a b => b.createdAt ≤ a.createdAt)
      if userWorkouts.isEmpty then .ok []
      else
        let workoutIds := userWorkouts.map (fun w => w.id)
        let allWorkoutExerciseData := workoutIds.map (fun wid => (wid, joinRows db wid))
        .ok (userWorkouts.map (fun w =>
          let rows := ((allWorkoutExerciseData.find? (fun p => decide (p.1 = w.id))).map
            (fun p => p.2)).getD []
          ⟨w.id, w.name, w.date, w.durationMinutes, w.notes, groupRows rows⟩))

/-- First-occurrence deduplication, the model of `selectDistinct` on the row
stream. -/
def dedupFirst (l : List String) : List String :=
  go l []
where
  /-- Tail of the deduplication: keep elements not yet seen. -/
  go : List String → List String → List String
    | [], _ => []
    | a :: l, seen => if a ∈ seen then go l seen else a :: go l (a :: seen)

/-- Byte-wise lexicographic string comparison, the semantics of SQL `>=`/`<=`
on these ASCII date strings. -/
def lexLe : List Char → List Char → Bool
  | [], _ => true
  | _ :: _, [] => false
  | a :: as, b :: bs =>
      if a.toNat < b.toNat then true
      else if b.toNat < a.toNat then false
      else lexLe as bs

/-- SQL `gte`/`lte` on text columns. -/
def sqlLe (a b : String) : Bool := lexLe a.toList b.toList

/-- Embedding of `getWorkoutDatesForMonth`: month bounds built with the local
`new Date(year, month, 1)` / `new Date(year, month + 1, 0)` constructors and
formatted locally, a distinct select of the owner's dates between the bound
strings (no ORDER BY), and `parseDateFromDb` applied to each result string. -/
def getWorkoutDatesForMonth (auth : Option String) (year month : Int) (db : Db) :
    Except String (List (Option CivilDate)) :=
  match auth with
  | none => .error "Unauthorized"
  | some userId =>
      let startDate := jsDateFieldsCtor year month 1
      let endDate := jsDateFieldsCtor year (month + 1) 0
      let startDateString := formatDateForDb startDate
      let endDateString := formatDateForDb endDate
      let result := dedupFirst
        ((db.workouts.filter (fun w => decide (w.userId = userId)
          && sqlLe startDateString w.date && sqlLe w.date endDateString)).map
          (fun w => w.date))
      .ok (result.map parseDateFromDb)

/-! ## Write layer (`src/src/data/workouts.ts`) -/

/-- Input of `createWorkout` in the data layer. -/
structure CreateWorkoutData where
  name : String
  date : JSDate
  durationMinutes : Option Int
  notes : Option String
deriving DecidableEq, Repr

/-- Partial update payload of `updateWorkout`; `none` models an `undefined`
field, which drizzle's `.set` skips. -/
structure UpdateWorkoutData where
  name : Option String
  date : Option JSDate
  durationMinutes : Option Int
  notes : Option String
deriving DecidableEq, Repr

/-- Embedding of the data-layer `createWorkout`: authorization guard, then an
insert whose stored date is `data.date.toISOString().split("T")[0]` and whose
`userId` is forced to the caller.  `now` stands for the database clock
feeding the `defaultNow()` timestamp columns. -/
def createWorkout (auth : Option String) (data : CreateWorkoutData) (now : Nat)
    (db : Db) : Except String (WorkoutRow × Db) :=
  match auth with
  | none => .error "Unauthorized"
  | some userId =>
      let row : WorkoutRow :=
        ⟨nextWorkoutId db, userId, toISODatePart data.date, some data.name,
          data.durationMinutes, data.notes, now, now⟩
      .ok (row, ⟨db.workouts ++ [row], db.exercises, db.workoutExercises, db.sets⟩)

/-- Embedding of `getRecentWorkouts`: the caller's workouts ordered by date
string descending, truncated to `limit`. -/
def getRecentWorkouts (auth : Option String) (limit : Nat) (db : Db) :
    Except String (List WorkoutRow) :=
  match auth with
  | none => .error "Unauthorized"
  | some userId =>
      .ok (((db.workouts.filter (fun w => decide (w.userId = userId))).insertionSort
        (fun a b => sqlLe b.date a.date = true)).take limit)

/-- Embedding of `getWorkoutById`: select constrained by both the id and the
ownership predicate, limit 1. -/
def getWorkoutById (auth : Option String) (workoutId : Nat) (db : Db) :
    Except String (Option WorkoutRow) :=
  match auth with
  | none => .error "Unauthorized"
  | some userId =>
      .ok ((db.workouts.filter
        (fun w => decide (w.id = workoutId) && decide (w.userId = userId))).head?)

/-- Field-wise application of an update payload to a row: provided fields are
written, `undefined` fields are skipped, and the date is written as the ISO
date part only when a date is provided. -/
def applyUpdate (data : UpdateWorkoutData) (w : WorkoutRow) : WorkoutRow :=
  { w with
    name := match data.name with | some n => some n | none => w.name
    date := match data.date with | some d => toISODatePart d | none => w.date
    durationMinutes := match data.durationMinutes with
      | some x => some x | none => w.durationMinutes
    notes := match data.notes with | some x => some x | none => w.notes }

/-- Embedding of `updateWorkout`: update constrained by
`id = workoutId AND userId = caller`; `.returning()` yields the updated rows
and `[workout]` takes the first, `none` when no row matched. -/
def updateWorkout (auth : Option String) (workoutId : Nat)
    (data : UpdateWorkoutData) (db : Db) :
    Except String (Option WorkoutRow × Db) :=
  match auth with
  | none => .error "Unauthorized"
  | some userId =>
      let hit := fun (w : WorkoutRow) =>
        decide (w.id = workoutId) && decide (w.userId = userId)
      let newWorkouts := db.workouts.map (fun w => if hit w then applyUpdate data w else w)
      let returned := ((db.workouts.filter hit).map (applyUpdate data)).head?
      .ok (returned, ⟨newWorkouts, db.exercises, db.workoutExercises, db.sets⟩)

/-- Embedding of `deleteWorkout`: delete constrained by the same ownership
predicate; the schema's `onDelete: 'cascade'` rules remove the matched
workouts' exercise rows and their set rows. -/
def deleteWorkout (auth : Option String) (workoutId : Nat) (db : Db) :
    Except String (Option WorkoutRow × Db) :=
  match auth with
  | none => .error "Unauthorized"
  | some userId =>
      let hit := fun (w : WorkoutRow) =>
        decide (w.id = workoutId) && decide (w.userId = userId)
      let removed := db.workouts.filter hit
      let removedIds : List Nat := removed.map (fun w => w.id)
      let removedWeIds : List Nat := (db.workoutExercises.filter
        (fun we => decide (we.workoutId ∈ removedIds))).map (fun we => we.id)
      .ok (removed.head?,
        ⟨db.workouts.filter (fun w => !hit w), db.exercises,
          db.workoutExercises.filter (fun we => !decide (we.workoutId ∈ removedIds)),
          db.sets.filter (fun s => !decide (s.workoutExerciseId ∈ removedWeIds))⟩)

namespace LibActions

/-- Embedding of the dashboard quick-create `createWorkout` server action
(`src/lib/actions/workouts.ts`): no schema validation; the date string is
passed to the insert as-is and a falsy name (absent or empty) falls back to
the literal string stored in the database. The Postgres `date('date')`
column's own rejection of malformed date strings is outside this model,
which is relied on only for date strings the column accepts. -/
def createWorkout (auth : Option String) (date : String) (name : Option String)
    (now : Nat) (db : Db) : Except String (WorkoutRow × Db) :=
  match auth with
  | none => .error "Unauthorized"
  | some userId =>
      let storedName := match name with
        | none => "Untitled Workout"
        | some s => if s = "" then "Untitled Workout" else s
      let row : WorkoutRow :=
        ⟨nextWorkoutId db, userId, date, some storedName, none, none, now, now⟩
      .ok (row, ⟨db.workouts ++ [row], db.exercises, db.workoutExercises, db.sets⟩)

end LibActions

/-- A 150-character workout name: the unbounded `text('name')` column accepts
and stores it, while `createWorkoutSchema` caps names at 100 characters. -/
def overlongName : String := String.mk (List.replicate 150 'a')

/-! ## Server actions and their zod schemas
(`src/app/dashboard/workout/new/actions.ts` and the edit/delete actions) -/

/-- Strict parse of an ISO `YYYY-MM-DD` string to its calendar fields, the
shape accepted by `new Date(string)` on this code path (such strings denote
UTC midnight; other formats and impossible dates yield an invalid date). -/
def parseIsoYmd (s : String) : Option CivilDate :=
  match s.toList with
  | [a, b, c, d, h1, e, f, h2, g, k] =>
      if h1 = '-' ∧ h2 = '-' ∧ ([a, b, c, d, e, f, g, k].all Char.isDigit) = true then
        let y := digitsToNat [a, b, c, d]
        let m := digitsToNat [e, f]
        let dd := digitsToNat [g, k]
        if 1 ≤ m ∧ m ≤ 12 ∧ 1 ≤ dd ∧ dd ≤ daysInMonth (y : Int) m then
          some ⟨(y : Int), m, dd⟩
        else none
      else none
  | _ => none

/-- Semantics of `new Date(dateString)` for an ISO date-only string under a
host timezone offset `tz` (minutes east of UTC): the instant is UTC midnight,
so the local fields are that date shifted by the offset. -/
def jsDateFromString (tz : Int) (s : String) : Option JSDate :=
  (parseIsoYmd s).map (fun c =>
    ⟨addDays c (Int.fdiv tz 1440), (Int.fmod tz 1440).toNat, tz⟩)

/-- Result shape of the server actions: `{success: true, data}` or
`{success: false, error}`. -/
inductive ActionResult where
  | ok (data : WorkoutRow)
  | err (error : String)
deriving DecidableEq, Repr

/-- Raw input of `createWorkoutAction` (already typed by TypeScript). -/
structure CreateWorkoutInput where
  name : String
  date : String
  durationMinutes : Option Int
  notes : Option String
deriving DecidableEq, Repr

/-- Raw input of `updateWorkoutAction`. -/
structure UpdateWorkoutInput where
  id : Int
  name : String
  date : String
  durationMinutes : Option Int
  notes : Option String
deriving DecidableEq, Repr

/-- Raw input of `deleteWorkoutAction`. -/
structure DeleteWorkoutInput where
  id : Int
deriving DecidableEq, Repr

/-- Embedding of `createWorkoutSchema.parse`: the checks in declaration/chain
order, surfacing the first violated rule's message (`error.issues[0].message`;
the `int()` check is vacuous in this integer model). -/
def zodParseCreate (i : CreateWorkoutInput) : Except String CreateWorkoutInput :=
  if i.name.length < 1 then .error "Workout name is required"
  else if 100 < i.name.length then .error "String must contain at most 100 character(s)"
  else if i.date.length < 1 then .error "Date is required"
  else if i.durationMinutes.any (fun d => decide (d ≤ 0)) then
    .error "Number must be greater than 0"
  else if i.notes.any (fun n => decide (1000 < n.length)) then
    .error "String must contain at most 1000 character(s)"
  else .ok i

/-- Embedding of `updateWorkoutSchema.parse` (field order: id first). -/
def zodParseUpdate (i : UpdateWorkoutInput) : Except String UpdateWorkoutInput :=
  if i.id ≤ 0 then .error "Number must be greater than 0"
  else if i.name.length < 1 then .error "Workout name is required"
  else if 100 < i.name.length then .error "String must contain at most 100 character(s)"
  else if i.date.length < 1 then .error "Date is required"
  else if i.durationMinutes.any (fun d => decide (d ≤ 0)) then
    .error "Number must be greater than 0"
  else if i.notes.any (fun n => decide (1000 < n.length)) then
    .error "String must contain at most 1000 character(s)"
  else .ok i

/-- Embedding of `deleteWorkoutSchema.parse`. -/
def zodParseDelete (i : DeleteWorkoutInput) : Except String DeleteWorkoutInput :=
  if i.id ≤ 0 then .error "Number must be greater than 0"
  else .ok i

/-- Embedding of `createWorkoutAction`: schema validation, `new Date(string)`
conversion, then the data-layer helper; a thrown error (authorization, or a
RangeError from an invalid date's `toISOString`) is caught and reported as
the generic failure message, leaving storage untouched. -/
def createWorkoutAction (tz : Int) (auth : Option String)
    (input : CreateWorkoutInput) (now : Nat) (db : Db) : ActionResult × Db :=
  match zodParseCreate input with
  | .error m => (.err m, db)
  | .ok v =>
      match jsDateFromString tz v.date with
      | none => (.err "Failed to create workout", db)
      | some jd =>
          match createWorkout auth ⟨v.name, jd, v.durationMinutes, v.notes⟩ now db with
          | .error _ => (.err "Failed to create workout", db)
          | .ok (w, dbNew) => (.ok w, dbNew)

/-- Embedding of `updateWorkoutAction` (the schema makes name and date
required, so both reach the helper; a `none` helper result is reported as the
merged not-found/unauthorized failure). -/
def updateWorkoutAction (tz : Int) (auth : Option String)
    (input : UpdateWorkoutInput) (db : Db) : ActionResult × Db :=
  match zodParseUpdate input with
  | .error m => (.err m, db)
  | .ok v =>
      match jsDateFromString tz v.date with
      | none => (.err "Failed to update workout", db)
      | some jd =>
          match updateWorkout auth v.id.toNat
            ⟨some v.name, some jd, v.durationMinutes, v.notes⟩ db with
          | .error _ => (.err "Failed to update workout", db)
          | .ok (none, dbNew) => (.err "Workout not found or unauthorized", dbNew)
          | .ok (some w, dbNew) => (.ok w, dbNew)

/-- Embedding of `deleteWorkoutAction`. -/
def deleteWorkoutAction (auth : Option String) (input : DeleteWorkoutInput)
    (db : Db) : ActionResult × Db :=
  match zodParseDelete input with
  | .error m => (.err m, db)
  | .ok v =>
      match deleteWorkout auth v.id.toNat db with
      | .error _ => (.err "Failed to delete workout", db)
      | .ok (none, dbNew) => (.err "Workout not found or unauthorized", dbNew)
      | .ok (some w, dbNew) => (.ok w, dbNew)

/-- Decidable equality for `Except`, used to evaluate operation results. -/
instance exceptDecidableEq {ε α : Type} [DecidableEq ε] [DecidableEq α] :
    DecidableEq (Except ε α) := fun x y =>
  match x, y with
  | .ok a, .ok b =>
      if h : a = b then .isTrue (by rw [h]) else .isFalse (by intro he; cases he; exact h rfl)
  | .error a, .error b =>
      if h : a = b then .isTrue (by rw [h]) else .isFalse (by intro he; cases he; exact h rfl)
  | .ok _, .error _ => .isFalse (by intro he; cases he)
  | .error _, .ok _ => .isFalse (by intro he; cases he)

/-- Part of the database reachable through the ownership chain of one user:
their workout rows, the exercise-join rows pointing at those workouts, and
the set rows pointing at those join rows.  (The shared exercise catalog is
not user-owned and is tracked separately.) -/
def restrictToUser (u : String) (db : Db) : Db :=
  let myWorkouts := db.workouts.filter (fun w => decide (w.userId = u))
  let myIds : List Nat := myWorkouts.map (fun w => w.id)
  let myWes := db.workoutExercises.filter (fun we => decide (we.workoutId ∈ myIds))
  let myWeIds : List Nat := myWes.map (fun we => we.id)
  ⟨myWorkouts, [], myWes, db.sets.filter (fun s => decide (s.workoutExerciseId ∈ myWeIds))⟩


/-- Set views of the rows carrying a set for a given `exerciseId` key, in row
order. -/
def setsOfKey (rows : List JoinedRow) (k : Nat) : List SetView :=
  ((rows.filter (fun r => decide (r.workoutExercise.exerciseId = k))).filterMap
    (fun r => r.set)).map mkSetView

/-- First-occurrence keys of a row stream that are not already seen. -/
def newKeys (seen : List Nat) : List JoinedRow → List Nat
  | [] => []
  | r :: rows =>
      if r.workoutExercise.exerciseId ∈ seen then newKeys seen rows
      else r.workoutExercise.exerciseId ::
        newKeys (r.workoutExercise.exerciseId :: seen) rows


/-- Calendar order on dates (year, then month, then day). -/
def dateLe (a b : CivilDate) : Bool :=
  if a.year < b.year then true
  else if b.year < a.year then false
  else if a.month < b.month then true
  else if b.month < a.month then false
  else a.day ≤ b.day

/-- Database invariant for the date claims: every stored workout date is the
local-field formatting of a valid four-digit-year calendar date (which is
what the write paths produce in practice). -/
def dbDatesWellFormed (db : Db) : Prop :=
  ∀ w ∈ db.workouts, ∃ c : CivilDate, validCivilDate c ∧ 1000 ≤ c.year ∧
    c.year ≤ 9999 ∧ w.date = formatDateForDb c

example : formatDateForDb ⟨2025, 9, 1⟩ = "2025-09-01" := by decide

example : parseDateFromDb "2025-09-01" = some ⟨2025, 9, 1⟩ := by decide

example : parseDateFromDb "99-09-01" = some ⟨1999, 9, 1⟩ := by decide

/-! ## Numeral and splitting lemmas -/

theorem digitChar_isDigit {n : Nat} (h : n < 10) : (digitChar n).isDigit = true := by
  interval_cases n <;> decide

theorem toNat_digitChar {n : Nat} (h : n < 10) : (digitChar n).toNat - 48 = n := by
  interval_cases n <;> decide

theorem digitsToNat_append_singleton (l : List Char) (c : Char) :
    digitsToNat (l ++ [c]) = digitsToNat l * 10 + (c.toNat - 48) := by
  simp [digitsToNat, List.foldl_append]

theorem natToDigitsAux_all_isDigit (fuel n : Nat) :
    (natToDigitsAux fuel n).all Char.isDigit = true := by
  induction fuel generalizing n with
  | zero => rfl
  | succ fuel ih =>
      unfold natToDigitsAux
      by_cases h : n < 10
      · simp [h, digitChar_isDigit h]
      · simp only [h, if_false, List.all_append]
        simp [ih, digitChar_isDigit (Nat.mod_lt n (by norm_num))]

theorem digitsToNat_natToDigitsAux (fuel n : Nat) (h : n < 10 ^ fuel) :
    digitsToNat (natToDigitsAux fuel n) = n := by
  induction fuel generalizing n with
  | zero => simp at h; simp [h, natToDigitsAux, digitsToNat]
  | succ fuel ih =>
      unfold natToDigitsAux
      by_cases hn : n < 10
      · simp [hn, digitsToNat, toNat_digitChar hn]
      · have hdiv : n / 10 < 10 ^ fuel := by
          rw [Nat.div_lt_iff_lt_mul (by norm_num)]
          calc n < 10 ^ (fuel + 1) := h
            _ = 10 ^ fuel * 10 := by ring
        simp only [hn, if_false]
        rw [digitsToNat_append_singleton, ih _ hdiv,
          toNat_digitChar (Nat.mod_lt n (by norm_num))]
        omega

theorem natToDigits_all_isDigit (n : Nat) :
    (natToDigits n).all Char.isDigit = true :=
  natToDigitsAux_all_isDigit _ _

theorem digitsToNat_natToDigits (n : Nat) : digitsToNat (natToDigits n) = n :=
  digitsToNat_natToDigitsAux _ _ (lt_of_lt_of_le (Nat.lt_pow_self (by norm_num) n)
    (Nat.pow_le_pow_right (by norm_num) (Nat.le_succ n)))

theorem digitsToNat_replicate_zero_append (k : Nat) (l : List Char) :
    digitsToNat (List.replicate k '0' ++ l) = digitsToNat l := by
  induction k with
  | zero => rfl
  | succ k ih =>
      simp only [List.replicate_succ, List.cons_append]
      show digitsToNat (List.replicate k '0' ++ l) = digitsToNat l
      exact ih

theorem digitsToNat_padStart2 (l : List Char) :
    digitsToNat (padStart2 l) = digitsToNat l :=
  digitsToNat_replicate_zero_append _ _

theorem padStart2_all_isDigit {l : List Char} (h : l.all Char.isDigit = true) :
    (padStart2 l).all Char.isDigit = true := by
  have hrep : ∀ c ∈ List.replicate (2 - l.length) '0', c.isDigit = true := by
    intro c hc
    rw [List.eq_of_mem_replicate hc]; rfl
  simp [padStart2, List.all_append, h, List.all_eq_true.mpr hrep]

theorem splitChar_of_not_mem {sep : Char} {l : List Char}
    (h : ∀ c ∈ l, c ≠ sep) : splitChar sep l = [l] := by
  induction l with
  | nil => rfl
  | cons c cs ih =>
      have hc : c ≠ sep := h c (by simp)
      have hrec := ih (fun x hx => h x (by simp [hx]))
      simp only [splitChar, if_neg hc, hrec]

theorem splitChar_append {sep : Char} {a : List Char} (rest : List Char)
    (h : ∀ c ∈ a, c ≠ sep) :
    splitChar sep (a ++ sep :: rest) = a :: splitChar sep rest := by
  induction a with
  | nil => simp [splitChar]
  | cons c cs ih =>
      have hc : c ≠ sep := h c (by simp)
      have hrec := ih (fun x hx => h x (by simp [hx]))
      simp only [List.cons_append, splitChar, if_neg hc]
      have hrec' : splitChar sep (cs.append (sep :: rest)) = cs :: splitChar sep rest := hrec
      rw [hrec']

theorem jsNumber_of_digits {l : List Char} (hne : l ≠ [])
    (hd : l.all Char.isDigit = true) :
    jsNumber l = some ((digitsToNat l : Nat) : Int) := by
  simp [jsNumber, hne, hd]

theorem int_fdiv_ofNat (a : Nat) : Int.fdiv (a : Int) 12 = ((a / 12 : Nat) : Int) := by
  cases a with
  | zero => rw [Nat.zero_div]; rfl
  | succ n => rfl

theorem int_fmod_ofNat (a : Nat) : Int.fmod (a : Int) 12 = ((a % 12 : Nat) : Int) := by
  cases a with
  | zero => rw [Nat.zero_mod]; rfl
  | succ n => rfl

theorem iterate_nextDay_same_month (y : Int) (m : Nat) (k : Nat) :
    ∀ j : Nat, 1 ≤ j → j + k ≤ daysInMonth y m →
      nextDay^[k] ⟨y, m, j⟩ = ⟨y, m, j + k⟩ := by
  induction k with
  | zero => intro j _ _; simp
  | succ k ih =>
      intro j hj hk
      rw [Function.iterate_succ_apply]
      have hstep : nextDay ⟨y, m, j⟩ = ⟨y, m, j + 1⟩ := by
        unfold nextDay
        simp only
        rw [if_pos (by omega)]
      rw [hstep, ih (j + 1) (by omega) (by omega)]
      congr 1
      omega

theorem addDays_first_of_month (y : Int) (m d : Nat) (h1 : 1 ≤ d)
    (hd : d ≤ daysInMonth y m) :
    addDays ⟨y, m, 1⟩ ((d : Int) - 1) = ⟨y, m, d⟩ := by
  unfold addDays
  rw [if_pos (by omega)]
  have ht : ((d : Int) - 1).toNat = d - 1 := by omega
  rw [ht, iterate_nextDay_same_month y m (d - 1) 1 le_rfl (by omega)]
  congr 1
  omega

theorem jsDateFieldsCtor_of_valid (y : Int) (m d : Nat) (hy : 100 ≤ y)
    (hm1 : 1 ≤ m) (hm2 : m ≤ 12) (hd1 : 1 ≤ d) (hd2 : d ≤ daysInMonth y m) :
    jsDateFieldsCtor y ((m : Int) - 1) (d : Int) = ⟨y, m, d⟩ := by
  unfold jsDateFieldsCtor
  have hq : ¬ (0 ≤ y ∧ y ≤ 99) := by omega
  have hcast : (m : Int) - 1 = ((m - 1 : Nat) : Int) := by omega
  simp only [hq, if_false, hcast, int_fdiv_ofNat, int_fmod_ofNat]
  rw [Nat.div_eq_of_lt (by omega), Nat.mod_eq_of_lt (by omega)]
  simp only [Int.toNat_ofNat, Nat.cast_zero, add_zero]
  have hm : m - 1 + 1 = m := by omega
  rw [hm]
  exact addDays_first_of_month y m d hd1 hd2

theorem ne_dash_of_all_digits {l : List Char} (h : l.all Char.isDigit = true) :
    ∀ c ∈ l, c ≠ '-' := by
  intro c hc hceq
  subst hceq
  have := List.all_eq_true.mp h _ hc
  simp at this

theorem natToDigits_ne_nil (n : Nat) : natToDigits n ≠ [] := by
  unfold natToDigits natToDigitsAux
  split <;> simp

theorem padStart2_ne_nil {l : List Char} (h : l ≠ []) : padStart2 l ≠ [] := by
  simp [padStart2, h]

/-- CLAIM C1 (amended): for every valid calendar date whose year is at least
100, parsing the string produced by the local-field date formatter returns a
date with the same local year, month and day.  (Both functions read and write
only local calendar fields, so the statement is independent of the host
timezone offset by construction.  For years 0-99 the claim fails, because the
`new Date(year, month, day)` constructor remaps those years to 1900-1999.) -/
theorem c1_parse_format_local_roundtrip (c : CivilDate) (hv : validCivilDate c)
    (hy : 100 ≤ c.year) : parseDateFromDb (formatDateForDb c) = some c := by
  obtain ⟨y, m, d⟩ := c
  obtain ⟨hm1, hm2, hd1, hd2⟩ := hv
  simp only at hm1 hm2 hd1 hd2 hy
  have hy0 : ¬ (y < 0) := by omega
  have hA : jsIntToDigits y = natToDigits y.toNat := by
    simp [jsIntToDigits, hy0]
  set A := natToDigits y.toNat with hAdef
  set B := padStart2 (natToDigits m) with hBdef
  set C := padStart2 (natToDigits d) with hCdef
  have hlist : (formatDateForDb ⟨y, m, d⟩).toList = A ++ '-' :: (B ++ '-' :: C) := by
    show jsIntToDigits y ++ '-' :: B ++ '-' :: C = A ++ '-' :: (B ++ '-' :: C)
    rw [hA]
    simp
  have hAdig : A.all Char.isDigit = true := natToDigits_all_isDigit _
  have hBdig : B.all Char.isDigit = true := padStart2_all_isDigit (natToDigits_all_isDigit _)
  have hCdig : C.all Char.isDigit = true := padStart2_all_isDigit (natToDigits_all_isDigit _)
  have hsplit : splitChar '-' (formatDateForDb ⟨y, m, d⟩).toList = [A, B, C] := by
    rw [hlist, splitChar_append _ (ne_dash_of_all_digits hAdig),
      splitChar_append _ (ne_dash_of_all_digits hBdig),
      splitChar_of_not_mem (ne_dash_of_all_digits hCdig)]
  have hnA : jsNumber A = some ((y.toNat : Nat) : Int) := by
    rw [jsNumber_of_digits (natToDigits_ne_nil _) hAdig, digitsToNat_natToDigits]
  have hnB : jsNumber B = some ((m : Nat) : Int) := by
    rw [jsNumber_of_digits (padStart2_ne_nil (natToDigits_ne_nil _)) hBdig,
      digitsToNat_padStart2, digitsToNat_natToDigits]
  have hnC : jsNumber C = some ((d : Nat) : Int) := by
    rw [jsNumber_of_digits (padStart2_ne_nil (natToDigits_ne_nil _)) hCdig,
      digitsToNat_padStart2, digitsToNat_natToDigits]
  have hyy : ((y.toNat : Nat) : Int) = y := Int.toNat_of_nonneg (by omega)
  unfold parseDateFromDb
  rw [hsplit]
  simp only [List.map_cons, List.map_nil, hnA, hnB, hnC, hyy]
  show some (jsDateFieldsCtor y ((m : Int) - 1) (d : Int)) = some ⟨y, m, d⟩
  rw [jsDateFieldsCtor_of_valid y m d hy hm1 hm2 hd1 hd2]

/-- CLAIM C1 (counterexample to the claim as stated): the calendar date
99-09-01 is valid, yet the round trip does not preserve it — the JS
`new Date(99, 8, 1)` constructor remaps year 99 to 1999. -/
theorem c1_counterexample_two_digit_year :
    validCivilDate ⟨99, 9, 1⟩ ∧
      parseDateFromDb (formatDateForDb ⟨99, 9, 1⟩) ≠ some ⟨99, 9, 1⟩ := by
  decide

/-- CLAIM C1 witness: the amended round trip instantiated at 2025-02-28. -/
theorem c1_witness :
    validCivilDate ⟨2025, 2, 28⟩ ∧ (100 : Int) ≤ (2025 : Int) ∧
      parseDateFromDb (formatDateForDb ⟨2025, 2, 28⟩) = some ⟨2025, 2, 28⟩ :=
  ⟨by decide, by decide,
    c1_parse_format_local_roundtrip ⟨2025, 2, 28⟩ (by decide) (by decide)⟩

example : toISODatePart ⟨⟨2025, 9, 1⟩, 30, 120⟩ = "2025-08-31" := by decide

example : toISODatePart ⟨⟨2025, 9, 1⟩, 30, 0⟩ = "2025-09-01" := by decide

/-! ## Claim C4: write-path date normalization -/

/-- CLAIM C4 (code-bug evaluation): a JS `Date` whose local calendar date is
2025-09-01 (00:30 local time, host offset UTC+2) is stored by `createWorkout`
and `updateWorkout` as `2025-08-31` — the UTC date part produced by
`toISOString` — although its local calendar date formats as `2025-09-01`.
The write layer therefore routes through a UTC/ISO instant conversion instead
of the local calendar fields used by the read path. -/
theorem c4_write_path_uses_utc_instant :
    (createWorkout (some "u1") ⟨"Morning", ⟨⟨2025, 9, 1⟩, 30, 120⟩, none, none⟩ 7
        ⟨[], [], [], []⟩).map (fun p => p.1.date) = .ok "2025-08-31" ∧
    (updateWorkout (some "u1") 1
        ⟨none, some ⟨⟨2025, 9, 1⟩, 30, 120⟩, none, none⟩
        ⟨[⟨1, "u1", "2025-09-05", none, none, none, 3, 3⟩], [], [], []⟩).map
        (fun p => p.1.map (fun w => w.date)) = .ok (some "2025-08-31") ∧
    formatDateForDb ⟨2025, 9, 1⟩ = "2025-09-01" := by
  decide

/-! ## Claim C8: unauthenticated calls fail before any storage access -/

/-- CLAIM C8: when the identity provider resolves no caller, every read and
write operation throws the authorization error (the `Except.error` channel,
not the normal result), and does so for every database state — the result is
independent of the store, so no storage access has occurred. -/
theorem c8_null_identity_throws_before_storage :
    (∀ d db, getWorkoutsByDate none d db = .error "Unauthorized") ∧
    (∀ y m db, getWorkoutDatesForMonth none y m db = .error "Unauthorized") ∧
    (∀ data now db, createWorkout none data now db = .error "Unauthorized") ∧
    (∀ wid data db, updateWorkout none wid data db = .error "Unauthorized") ∧
    (∀ wid db, deleteWorkout none wid db = .error "Unauthorized") ∧
    (∀ wid db, getWorkoutById none wid db = .error "Unauthorized") ∧
    (∀ lim db, getRecentWorkouts none lim db = .error "Unauthorized") ∧
    (∀ date name now db,
      LibActions.createWorkout none date name now db = .error "Unauthorized") :=
  ⟨fun _ _ => rfl, fun _ _ _ => rfl, fun _ _ _ => rfl, fun _ _ _ => rfl,
    fun _ _ => rfl, fun _ _ => rfl, fun _ _ => rfl, fun _ _ _ _ => rfl⟩

/-! ## Claim C10: quick-create name fallback is persisted -/

/-- CLAIM C10: the dashboard quick-create action always persists a non-empty
name: the inserted row is appended to the `workouts` table with `name` set to
the argument when that is a non-empty string, and to the literal
`"Untitled Workout"` when the argument is absent or the empty string. -/
theorem c10_quick_create_persists_fallback_name :
    ∀ u date name now db, ∃ w dbNew,
      LibActions.createWorkout (some u) date name now db = .ok (w, dbNew) ∧
      dbNew.workouts = db.workouts ++ [w] ∧
      ∃ n, w.name = some n ∧ n ≠ "" ∧
        ((name = none ∨ name = some "") → n = "Untitled Workout") ∧
        (∀ s, name = some s → s ≠ "" → n = s) := by
  intro u date name now db
  cases name with
  | none =>
      refine ⟨_, _, rfl, rfl, "Untitled Workout", rfl, by decide, fun _ => rfl, ?_⟩
      intro s hs
      cases hs
  | some s =>
      by_cases hs : s = ""
      · subst hs
        refine ⟨_, _, rfl, rfl, "Untitled Workout", rfl, by decide, fun _ => rfl, ?_⟩
        intro t ht hne
        cases ht
        exact absurd rfl hne
      · refine ⟨_, _, rfl, rfl, s, ?_, hs, ?_, ?_⟩
        · show some (if s = "" then "Untitled Workout" else s) = some s
          rw [if_neg hs]
        · intro hcase
          rcases hcase with h | h
          · cases h
          · rw [Option.some_inj] at h
            exact absurd h hs
        · intro t ht _
          rw [Option.some_inj] at ht
          exact ht

/-! ## Claim C3: update/delete target only owned rows; merged not-found signal -/

theorem map_id_of_mem_eq {α : Type} (l : List α) (f : α → α)
    (h : ∀ a ∈ l, f a = a) : l.map f = l := by
  induction l with
  | nil => rfl
  | cons a t ih =>
      simp only [List.map_cons, h a (by simp)]
      rw [ih (fun b hb => h b (by simp [hb]))]

/-- Boolean ownership test is false when the conjunction fails. -/
theorem hit_eq_false {w : WorkoutRow} {wid : Nat} {u : String}
    (h : ¬(w.id = wid ∧ w.userId = u)) :
    (decide (w.id = wid) && decide (w.userId = u)) = false := by
  rcases Decidable.em (w.id = wid) with h1 | h1
  · rcases Decidable.em (w.userId = u) with h2 | h2
    · exact absurd ⟨h1, h2⟩ h
    · simp [h2]
  · simp [h1]

/-- CLAIM C3: `updateWorkout` rewrites only rows matching both
`id = workoutId` and `userId = caller` (every other row is unchanged in
place), `deleteWorkout` keeps every non-matching workout row, and whenever no
row satisfies both conditions — the id does not exist, or the workout belongs
to another user — update and delete alike leave the database unchanged and
return the `none` row that the actions render as the single merged
"Workout not found or unauthorized" result, so the two cases are externally
indistinguishable. -/
theorem c3_update_delete_scoped_and_merged_notfound :
    ∀ u wid data db,
      (∀ r dbNew, updateWorkout (some u) wid data db = .ok (r, dbNew) →
        dbNew.workouts.length = db.workouts.length ∧
        ∀ i (h1 : i < db.workouts.length) (h2 : i < dbNew.workouts.length),
          ¬((db.workouts.get ⟨i, h1⟩).id = wid ∧ (db.workouts.get ⟨i, h1⟩).userId = u) →
          dbNew.workouts.get ⟨i, h2⟩ = db.workouts.get ⟨i, h1⟩) ∧
      (∀ r dbNew, deleteWorkout (some u) wid db = .ok (r, dbNew) →
        ∀ w ∈ db.workouts, ¬(w.id = wid ∧ w.userId = u) → w ∈ dbNew.workouts) ∧
      ((∀ w ∈ db.workouts, ¬(w.id = wid ∧ w.userId = u)) →
        updateWorkout (some u) wid data db = .ok (none, db) ∧
        deleteWorkout (some u) wid db = .ok (none, db)) := by
  intro u wid data db
  obtain ⟨ws, es, wes, ss⟩ := db
  refine ⟨?_, ?_, ?_⟩
  · intro r dbNew hok
    simp only [updateWorkout, Except.ok.injEq, Prod.mk.injEq] at hok
    obtain ⟨-, hdb⟩ := hok
    subst hdb
    constructor
    · simp
    · intro i h1 h2 hnm
      have hget : (ws.map (fun w =>
          if (decide (w.id = wid) && decide (w.userId = u)) = true
          then applyUpdate data w else w)).get ⟨i, h2⟩ =
          (fun w => if (decide (w.id = wid) && decide (w.userId = u)) = true
            then applyUpdate data w else w) (ws.get ⟨i, by simpa using h1⟩) := by
        simp
      simp only at hget ⊢
      rw [hget]
      simp only [hit_eq_false hnm, Bool.false_eq_true, if_false]
  · intro r dbNew hok
    simp only [deleteWorkout, Except.ok.injEq, Prod.mk.injEq] at hok
    obtain ⟨-, hdb⟩ := hok
    subst hdb
    intro w hw hnm
    simp only [List.mem_filter]
    exact ⟨hw, by simp [hit_eq_false hnm]⟩
  · intro hall
    have hfalse : ∀ w ∈ ws, (decide (w.id = wid) && decide (w.userId = u)) = false :=
      fun w hw => hit_eq_false (hall w hw)
    have hfilter : ws.filter (fun w => decide (w.id = wid) && decide (w.userId = u)) = [] := by
      rw [List.filter_eq_nil_iff]
      intro a ha
      simp [hfalse a ha]
    constructor
    · simp only [updateWorkout]
      rw [hfilter,
        map_id_of_mem_eq ws _ (fun a ha => by simp [hfalse a ha])]
      rfl
    · simp only [deleteWorkout]
      rw [hfilter]
      have h1 : ws.filter (fun w => !(decide (w.id = wid) && decide (w.userId = u))) = ws :=
        List.filter_eq_self.mpr (fun a ha => by simp [hfalse a ha])
      have h5 : wes.filter (fun we => decide (we.workoutId ∈ ([] : List WorkoutRow).map
          (fun w => w.id))) = [] :=
        List.filter_eq_nil_iff.mpr (fun a _ => by simp)
      have h2 : wes.filter (fun we => !decide (we.workoutId ∈ ([] : List WorkoutRow).map
          (fun w => w.id))) = wes :=
        List.filter_eq_self.mpr (fun a _ => by simp)
      rw [h1, h5, h2]
      have h4 : ss.filter (fun s => !decide (s.workoutExerciseId ∈
          ([] : List WorkoutExerciseRow).map (fun we => we.id))) = ss :=
        List.filter_eq_self.mpr (fun a _ => by simp)
      rw [h4]
      rfl

/-! ## Claim C2: read-path ownership isolation -/

theorem flatMap_congr {α β : Type} {l : List α} {f g : α → List β}
    (h : ∀ a ∈ l, f a = g a) : l.flatMap f = l.flatMap g := by
  induction l with
  | nil => rfl
  | cons a t ih =>
      simp only [List.flatMap_cons]
      rw [h a (by simp), ih (fun b hb => h b (by simp [hb]))]

theorem filter_key_in_ids {α : Type} (l : List α) (key : α → Nat) (ids : List Nat)
    (target : Nat) (h : target ∈ ids) :
    (l.filter (fun a => decide (key a ∈ ids))).filter (fun a => decide (key a = target))
      = l.filter (fun a => decide (key a = target)) := by
  rw [List.filter_filter]
  apply List.filter_congr
  intro a _
  by_cases hk : key a = target
  · simp [hk, h]
  · simp [hk]

theorem joinRows_restrict (u : String) (db : Db) (wid : Nat)
    (hwid : wid ∈ (db.workouts.filter (fun w => decide (w.userId = u))).map
      (fun w => w.id)) :
    joinRows ⟨(restrictToUser u db).workouts, db.exercises,
      (restrictToUser u db).workoutExercises, (restrictToUser u db).sets⟩ wid
      = joinRows db wid := by
  obtain ⟨ws, es, wes, ss⟩ := db
  simp only [restrictToUser, joinRows] at *
  rw [filter_key_in_ids wes (fun we => we.workoutId) _ wid hwid]
  apply flatMap_congr
  intro we hwe
  apply flatMap_congr
  intro e _
  have hmem : we ∈ wes.filter (fun we => decide (we.workoutId ∈
      (ws.filter (fun w => decide (w.userId = u))).map (fun w => w.id))) := by
    rw [List.mem_filter]
    rw [List.mem_filter] at hwe
    refine ⟨hwe.1, ?_⟩
    have : we.workoutId = wid := by simpa using hwe.2
    simp [this, hwid]
  have hweid : we.id ∈ (wes.filter (fun we => decide (we.workoutId ∈
      (ws.filter (fun w => decide (w.userId = u))).map (fun w => w.id)))).map
      (fun we => we.id) := List.mem_map_of_mem _ hmem
  rw [filter_key_in_ids ss (fun s => s.workoutExerciseId) _ we.id hweid]

theorem getWorkoutsByDate_restrict_eq (u : String) (d : CivilDate) (db : Db) :
    getWorkoutsByDate (some u) d ⟨(restrictToUser u db).workouts, db.exercises,
      (restrictToUser u db).workoutExercises, (restrictToUser u db).sets⟩
      = getWorkoutsByDate (some u) d db := by
  have hW : (restrictToUser u db).workouts.filter
      (fun w => decide (w.userId = u) && decide (w.date = formatDateForDb d))
      = db.workouts.filter
      (fun w => decide (w.userId = u) && decide (w.date = formatDateForDb d)) := by
    show (db.workouts.filter (fun w => decide (w.userId = u))).filter _ = _
    rw [List.filter_filter]
    apply List.filter_congr
    intro a _
    by_cases h1 : a.userId = u <;> simp [h1]
  have hJoin : ∀ wid ∈ ((db.workouts.filter (fun w => decide (w.userId = u)
        && decide (w.date = formatDateForDb d))).insertionSort
        (fun a b => b.createdAt ≤ a.createdAt)).map (fun w => w.id),
      joinRows ⟨(restrictToUser u db).workouts, db.exercises,
        (restrictToUser u db).workoutExercises, (restrictToUser u db).sets⟩ wid
        = joinRows db wid := by
    intro wid hwidmem
    apply joinRows_restrict
    obtain ⟨w, hw, hwid⟩ := List.mem_map.mp hwidmem
    have hw' : w ∈ db.workouts.filter (fun w => decide (w.userId = u)
        && decide (w.date = formatDateForDb d)) := (List.mem_insertionSort _).mp hw
    rw [List.mem_filter] at hw'
    apply List.mem_map.mpr
    refine ⟨w, ?_, hwid⟩
    rw [List.mem_filter]
    refine ⟨hw'.1, ?_⟩
    have := hw'.2
    simp only [Bool.and_eq_true] at this
    exact this.1
  simp only [getWorkoutsByDate, hW]
  have hAll : (((db.workouts.filter (fun w => decide (w.userId = u)
        && decide (w.date = formatDateForDb d))).insertionSort
        (fun a b => b.createdAt ≤ a.createdAt)).map (fun w => w.id)).map
        (fun wid => (wid, joinRows ⟨(restrictToUser u db).workouts, db.exercises,
          (restrictToUser u db).workoutExercises, (restrictToUser u db).sets⟩ wid))
      = (((db.workouts.filter (fun w => decide (w.userId = u)
        && decide (w.date = formatDateForDb d))).insertionSort
        (fun a b => b.createdAt ≤ a.createdAt)).map (fun w => w.id)).map
        (fun wid => (wid, joinRows db wid)) := by
    apply List.map_congr_left
    intro wid hwid
    rw [hJoin wid hwid]
  simp only [hAll]

/-- CLAIM C2: `getWorkoutsByDate` is isolated to the caller's ownership
chain: its result depends only on the caller-owned slice of the database
(plus the shared exercise catalog), so adding or changing rows owned by any
other user never changes the caller's result; and every returned workout view
derives from a workout row whose owner is the caller, so another user's
workout data never appears. -/
theorem c2_ownership_isolation : ∀ u d,
    (∀ db1 db2, restrictToUser u db1 = restrictToUser u db2 →
      db1.exercises = db2.exercises →
      getWorkoutsByDate (some u) d db1 = getWorkoutsByDate (some u) d db2) ∧
    (∀ db out, getWorkoutsByDate (some u) d db = .ok out →
      ∀ v ∈ out, ∃ w, w ∈ db.workouts ∧ w.userId = u ∧ v.id = w.id) := by
  intro u d
  constructor
  · intro db1 db2 hr he
    rw [← getWorkoutsByDate_restrict_eq u d db1, ← getWorkoutsByDate_restrict_eq u d db2,
      hr, he]
  · intro db out hok v hv
    simp only [getWorkoutsByDate] at hok
    split at hok
    · injection hok with h
      rw [← h] at hv
      simp at hv
    · injection hok with h
      rw [← h] at hv
      obtain ⟨w, hw, hfw⟩ := List.mem_map.mp hv
      have hw' := (List.mem_insertionSort _).mp hw
      rw [List.mem_filter] at hw'
      refine ⟨w, hw'.1, ?_, ?_⟩
      · have h2 := hw'.2
        simp only [Bool.and_eq_true, decide_eq_true_eq] at h2
        exact h2.1
      · rw [← hfw]

/-- CLAIM C2 witness: a database holding a second user's workout with an
exercise and a set produces, for the first user, exactly the result of the
database without them. -/
theorem c2_witness :
    restrictToUser "u1"
        ⟨[⟨1, "u1", "2025-09-01", none, none, none, 5, 5⟩,
          ⟨2, "u2", "2025-09-01", none, none, none, 6, 6⟩],
         [⟨1, "Squat", none⟩],
         [⟨10, 2, 1, 1, none⟩],
         [⟨100, 10, 1, false, none, 5, none, none⟩]⟩
      = restrictToUser "u1"
        ⟨[⟨1, "u1", "2025-09-01", none, none, none, 5, 5⟩], [⟨1, "Squat", none⟩], [], []⟩ ∧
    getWorkoutsByDate (some "u1") ⟨2025, 9, 1⟩
        ⟨[⟨1, "u1", "2025-09-01", none, none, none, 5, 5⟩,
          ⟨2, "u2", "2025-09-01", none, none, none, 6, 6⟩],
         [⟨1, "Squat", none⟩],
         [⟨10, 2, 1, 1, none⟩],
         [⟨100, 10, 1, false, none, 5, none, none⟩]⟩
      = getWorkoutsByDate (some "u1") ⟨2025, 9, 1⟩
        ⟨[⟨1, "u1", "2025-09-01", none, none, none, 5, 5⟩], [⟨1, "Squat", none⟩], [], []⟩ :=
  ⟨by decide,
    (c2_ownership_isolation "u1" ⟨2025, 9, 1⟩).1 _ _ (by decide) (by decide)⟩

/-- CLAIM C3 witness: updating or deleting workout id 9999999 as `u2`, when
the only row is workout 1 owned by `u1`, returns the merged `none` signal and
leaves the database unchanged — covering both the foreign-owner and the
nonexistent-id scenarios at once. -/
theorem c3_witness :
    updateWorkout (some "u2") 9999999 ⟨some "N", none, none, none⟩
        ⟨[⟨1, "u1", "2025-09-01", none, none, none, 0, 0⟩], [], [], []⟩
      = .ok (none, ⟨[⟨1, "u1", "2025-09-01", none, none, none, 0, 0⟩], [], [], []⟩) ∧
    deleteWorkout (some "u2") 9999999
        ⟨[⟨1, "u1", "2025-09-01", none, none, none, 0, 0⟩], [], [], []⟩
      = .ok (none, ⟨[⟨1, "u1", "2025-09-01", none, none, none, 0, 0⟩], [], [], []⟩) :=
  (c3_update_delete_scoped_and_merged_notfound "u2" 9999999
    ⟨some "N", none, none, none⟩
    ⟨[⟨1, "u1", "2025-09-01", none, none, none, 0, 0⟩], [], [], []⟩).2.2 (by decide)

/-! ## Claim C9: same-day workouts ordered by creation time descending -/

theorem pairwise_createdAt_desc (l : List WorkoutRow) :
    List.Pairwise (fun a b => b.createdAt ≤ a.createdAt)
      (l.insertionSort (fun a b => b.createdAt ≤ a.createdAt)) := by
  haveI : IsTotal WorkoutRow (fun a b => b.createdAt ≤ a.createdAt) :=
    ⟨fun a b => le_total b.createdAt a.createdAt⟩
  haveI : IsTrans WorkoutRow (fun a b => b.createdAt ≤ a.createdAt) :=
    ⟨fun a b c h1 h2 => le_trans h2 h1⟩
  exact List.sorted_insertionSort _ l

/-- CLAIM C9: whenever two workouts of the same user fall on the queried
date and the second was created strictly later, the result of
`getWorkoutsByDate` lists the later-created one strictly before the earlier
one (creation time descending). -/
theorem c9_same_day_desc_creation_order :
    ∀ u d db w1 w2 out,
      w1 ∈ db.workouts → w2 ∈ db.workouts →
      w1.userId = u → w2.userId = u →
      w1.date = formatDateForDb d → w2.date = formatDateForDb d →
      w1.createdAt < w2.createdAt →
      getWorkoutsByDate (some u) d db = .ok out →
      ∃ i j, ∃ (hi : i < out.length) (hj : j < out.length), i < j ∧
        (out.get ⟨i, hi⟩).id = w2.id ∧ (out.get ⟨j, hj⟩).id = w1.id := by
  intro u d db w1 w2 out hm1 hm2 hu1 hu2 hd1 hd2 hlt hok
  have hf1 : w1 ∈ db.workouts.filter (fun w => decide (w.userId = u)
      && decide (w.date = formatDateForDb d)) := by
    rw [List.mem_filter]
    exact ⟨hm1, by simp [hu1, hd1]⟩
  have hf2 : w2 ∈ db.workouts.filter (fun w => decide (w.userId = u)
      && decide (w.date = formatDateForDb d)) := by
    rw [List.mem_filter]
    exact ⟨hm2, by simp [hu2, hd2]⟩
  simp only [getWorkoutsByDate] at hok
  have hs1 : w1 ∈ (db.workouts.filter (fun w => decide (w.userId = u)
      && decide (w.date = formatDateForDb d))).insertionSort
      (fun a b => b.createdAt ≤ a.createdAt) := (List.mem_insertionSort _).mpr hf1
  have hs2 : w2 ∈ (db.workouts.filter (fun w => decide (w.userId = u)
      && decide (w.date = formatDateForDb d))).insertionSort
      (fun a b => b.createdAt ≤ a.createdAt) := (List.mem_insertionSort _).mpr hf2
  split at hok
  · rename_i hemp
    rw [List.isEmpty_iff] at hemp
    rw [hemp] at hs1
    simp at hs1
  · injection hok with h
    subst h
    obtain ⟨i1, hg1⟩ := List.mem_iff_get.mp hs1
    obtain ⟨i2, hg2⟩ := List.mem_iff_get.mp hs2
    have horder : (i2 : Nat) < (i1 : Nat) := by
      rcases Nat.lt_trichotomy (i1 : Nat) (i2 : Nat) with hlt' | heq | hgt
      · exfalso
        have hp := List.pairwise_iff_get.mp (pairwise_createdAt_desc
          (db.workouts.filter (fun w => decide (w.userId = u)
            && decide (w.date = formatDateForDb d)))) i1 i2 hlt'
        rw [hg1, hg2] at hp
        omega
      · exfalso
        have heq2 : w1 = w2 := by
          rw [← hg1, ← hg2]
          congr 1
          exact Fin.ext heq
        rw [heq2] at hlt
        omega
      · exact hgt
    refine ⟨(i2 : Nat), (i1 : Nat), by simpa using i2.isLt, by simpa using i1.isLt,
      horder, ?_, ?_⟩
    · simp only [List.get_map, Fin.eta, hg2]
    · simp only [List.get_map, Fin.eta, hg1]

/-- CLAIM C9 witness: two same-day workouts created at times 10 and 20 are
returned with the later-created one first. -/
theorem c9_witness :
    getWorkoutsByDate (some "u") ⟨2025, 9, 1⟩
        ⟨[⟨1, "u", "2025-09-01", none, none, none, 10, 10⟩,
          ⟨2, "u", "2025-09-01", none, none, none, 20, 20⟩], [], [], []⟩
      = .ok [⟨2, none, "2025-09-01", none, none, []⟩,
             ⟨1, none, "2025-09-01", none, none, []⟩] ∧
    (∃ i j, ∃ (hi : i < ([⟨2, none, "2025-09-01", none, none, []⟩,
        ⟨1, none, "2025-09-01", none, none, []⟩] : List WorkoutView).length)
      (hj : j < ([⟨2, none, "2025-09-01", none, none, []⟩,
        ⟨1, none, "2025-09-01", none, none, []⟩] : List WorkoutView).length), i < j ∧
      (([⟨2, none, "2025-09-01", none, none, []⟩,
        ⟨1, none, "2025-09-01", none, none, []⟩] : List WorkoutView).get ⟨i, hi⟩).id
        = (⟨2, "u", "2025-09-01", none, none, none, 20, 20⟩ : WorkoutRow).id ∧
      (([⟨2, none, "2025-09-01", none, none, []⟩,
        ⟨1, none, "2025-09-01", none, none, []⟩] : List WorkoutView).get ⟨j, hj⟩).id
        = (⟨1, "u", "2025-09-01", none, none, none, 10, 10⟩ : WorkoutRow).id) :=
  ⟨by decide,
    c9_same_day_desc_creation_order "u" ⟨2025, 9, 1⟩
      ⟨[⟨1, "u", "2025-09-01", none, none, none, 10, 10⟩,
        ⟨2, "u", "2025-09-01", none, none, none, 20, 20⟩], [], [], []⟩
      ⟨1, "u", "2025-09-01", none, none, none, 10, 10⟩
      ⟨2, "u", "2025-09-01", none, none, none, 20, 20⟩
      [⟨2, none, "2025-09-01", none, none, []⟩, ⟨1, none, "2025-09-01", none, none, []⟩]
      (by decide) (by decide) (by decide) (by decide) (by decide) (by decide)
      (by decide) (by decide)⟩

/-! ## Claim C5: grouping of flat joined rows -/

theorem lookupKey_cons (k : Nat) (p : Nat × ExerciseView) (l : List (Nat × ExerciseView)) :
    lookupKey k (p :: l) = if p.1 = k then some p.2 else lookupKey k l := by
  by_cases hp : p.1 = k
  · simp [lookupKey, List.find?_cons_of_pos, hp]
  · simp [lookupKey, List.find?_cons_of_neg, hp]

theorem lookupKey_append (k : Nat) (m1 m2 : List (Nat × ExerciseView)) :
    lookupKey k (m1 ++ m2) = match lookupKey k m1 with
      | some v => some v
      | none => lookupKey k m2 := by
  induction m1 with
  | nil => simp [lookupKey]
  | cons p t ih =>
      by_cases hp : p.1 = k
      · simp [lookupKey_cons, hp]
      · simpa [lookupKey_cons, hp] using ih

theorem lookupKey_isSome_iff (k : Nat) (m : List (Nat × ExerciseView)) :
    (lookupKey k m).isSome = true ↔ k ∈ m.map (fun p => p.1) := by
  induction m with
  | nil => simp [lookupKey]
  | cons p t ih =>
      rw [lookupKey_cons]
      by_cases hp : p.1 = k
      · simp [hp]
      · simp [hp, ih, Ne.symm hp]

theorem lookupKey_map_update (k k0 : Nat) (f : ExerciseView → ExerciseView)
    (m : List (Nat × ExerciseView)) :
    lookupKey k (m.map (fun p => if p.1 = k0 then (p.1, f p.2) else p)) =
      if k = k0 then (lookupKey k m).map f else lookupKey k m := by
  induction m with
  | nil => by_cases h : k = k0 <;> simp [lookupKey, h]
  | cons p t ih =>
      simp only [List.map_cons]
      by_cases hp0 : p.1 = k0
      · by_cases hpk : p.1 = k
        · have hkk0 : k = k0 := by rw [← hpk]; exact hp0
          simp [lookupKey_cons, hp0, hpk, hkk0]
        · rw [if_pos hp0, lookupKey_cons, lookupKey_cons, if_neg hpk, if_neg hpk, ih]
      · by_cases hpk : p.1 = k
        · have hkk0 : ¬ k = k0 := by rw [← hpk]; exact hp0
          simp [lookupKey_cons, hp0, hpk, hkk0]
        · rw [if_neg hp0, lookupKey_cons, lookupKey_cons, if_neg hpk, if_neg hpk, ih]

theorem lookupKey_eq_some_of_mem_nodup {k : Nat} {v : ExerciseView}
    {m : List (Nat × ExerciseView)} (hnd : (m.map (fun p => p.1)).Nodup)
    (hm : (k, v) ∈ m) : lookupKey k m = some v := by
  induction m with
  | nil => simp at hm
  | cons p t ih =>
      simp only [List.map_cons, List.nodup_cons] at hnd
      rcases List.mem_cons.mp hm with h | h
      · rw [← h, lookupKey_cons]
        simp
      · rw [lookupKey_cons]
        have hne : p.1 ≠ k := by
          intro he
          apply hnd.1
          apply List.mem_map.mpr
          exact ⟨(k, v), h, by rw [he]⟩
        rw [if_neg hne]
        exact ih hnd.2 h

theorem newKeys_congr (rows : List JoinedRow) : ∀ s1 s2 : List Nat,
    (∀ x, x ∈ s1 ↔ x ∈ s2) → newKeys s1 rows = newKeys s2 rows := by
  induction rows with
  | nil => intro s1 s2 _; rfl
  | cons r rows ih =>
      intro s1 s2 hs
      simp only [newKeys]
      by_cases h : r.workoutExercise.exerciseId ∈ s1
      · rw [if_pos h, if_pos ((hs _).mp h), ih s1 s2 hs]
      · rw [if_neg h, if_neg (fun hc => h ((hs _).mpr hc)),
          ih (r.workoutExercise.exerciseId :: s1) (r.workoutExercise.exerciseId :: s2)
            (fun x => by simp [hs x])]

theorem newKeys_nodup_and_fresh (rows : List JoinedRow) : ∀ seen : List Nat,
    (newKeys seen rows).Nodup ∧ ∀ x ∈ newKeys seen rows, x ∉ seen := by
  induction rows with
  | nil => intro seen; simp [newKeys]
  | cons r rows ih =>
      intro seen
      simp only [newKeys]
      by_cases h : r.workoutExercise.exerciseId ∈ seen
      · rw [if_pos h]; exact ih seen
      · rw [if_neg h]
        obtain ⟨hnd, hfresh⟩ := ih (r.workoutExercise.exerciseId :: seen)
        constructor
        · rw [List.nodup_cons]
          exact ⟨fun hc => (hfresh _ hc) (by simp), hnd⟩
        · intro x hx
          rcases List.mem_cons.mp hx with hx | hx
          · rw [hx]; exact h
          · intro hc
            exact (hfresh x hx) (by simp [hc])

theorem mem_newKeys (x : Nat) (rows : List JoinedRow) : ∀ seen : List Nat,
    x ∈ newKeys seen rows ↔
      (x ∉ seen ∧ ∃ r ∈ rows, r.workoutExercise.exerciseId = x) := by
  induction rows with
  | nil => intro seen; simp [newKeys]
  | cons r rows ih =>
      intro seen
      simp only [newKeys]
      by_cases h : r.workoutExercise.exerciseId ∈ seen
      · rw [if_pos h, ih seen]
        constructor
        · rintro ⟨hns, r', hr', hk⟩
          exact ⟨hns, r', by simp [hr'], hk⟩
        · rintro ⟨hns, r', hr', hk⟩
          rcases List.mem_cons.mp hr' with he | he
          · exfalso
            rw [he] at hk
            rw [hk] at h
            exact hns h
          · exact ⟨hns, r', he, hk⟩
      · rw [if_neg h]
        by_cases hx : x = r.workoutExercise.exerciseId
        · subst hx
          constructor
          · intro _
            exact ⟨h, ⟨r, by simp, rfl⟩⟩
          · intro _
            exact List.mem_cons_self _ _
        · constructor
          · intro hmem
            rcases List.mem_cons.mp hmem with he | he
            · exact absurd he.symm (fun hc => hx hc.symm)
            · obtain ⟨hns, r', hr', hk⟩ := (ih _).mp he
              refine ⟨fun hc => hns (by simp [hc]), r', by simp [hr'], hk⟩
          · rintro ⟨hns, r', hr', hk⟩
            apply List.mem_cons.mpr
            right
            apply (ih _).mpr
            refine ⟨?_, r', ?_, hk⟩
            · intro hc
              rcases List.mem_cons.mp hc with he | he
              · exact hx he
              · exact hns he
            · rcases List.mem_cons.mp hr' with he | he
              · exfalso; rw [he] at hk; exact hx hk.symm
              · exact he

theorem keys_map_update (k0 : Nat) (f : ExerciseView → ExerciseView)
    (m : List (Nat × ExerciseView)) :
    (m.map (fun p => if p.1 = k0 then (p.1, f p.2) else p)).map (fun p => p.1)
      = m.map (fun p => p.1) := by
  rw [List.map_map]
  apply List.map_congr_left
  intro p _
  by_cases h : p.1 = k0 <;> simp [h]

theorem keys_groupStep (m : List (Nat × ExerciseView)) (r : JoinedRow) :
    (groupStep m r).map (fun p => p.1) =
      if r.workoutExercise.exerciseId ∈ m.map (fun p => p.1)
      then m.map (fun p => p.1)
      else m.map (fun p => p.1) ++ [r.workoutExercise.exerciseId] := by
  simp only [groupStep]
  by_cases h : (lookupKey r.workoutExercise.exerciseId m).isSome = true
  · have hm := (lookupKey_isSome_iff _ _).mp h
    rw [if_pos hm]
    cases hset : r.set with
    | none => simp [h]
    | some s =>
        simp [h, keys_map_update]
        intro a b _
        split <;> rfl
  · have hm := fun hc => h ((lookupKey_isSome_iff _ _).mpr hc)
    rw [if_neg hm]
    cases hset : r.set with
    | none => simp [h]
    | some s =>
        simp [h, keys_map_update]
        intro a b _
        split <;> rfl

theorem keys_foldl_groupStep (rows : List JoinedRow) :
    ∀ m : List (Nat × ExerciseView),
      (rows.foldl groupStep m).map (fun p => p.1)
        = m.map (fun p => p.1) ++ newKeys (m.map (fun p => p.1)) rows := by
  induction rows with
  | nil => intro m; simp [newKeys]
  | cons r rows ih =>
      intro m
      rw [List.foldl_cons, ih (groupStep m r), keys_groupStep]
      by_cases h : r.workoutExercise.exerciseId ∈ m.map (fun p => p.1)
      · rw [if_pos h]
        simp only [newKeys]
        rw [if_pos h]
      · rw [if_neg h]
        simp only [newKeys]
        rw [if_neg h,
          newKeys_congr rows (m.map (fun p => p.1) ++ [r.workoutExercise.exerciseId])
            (r.workoutExercise.exerciseId :: m.map (fun p => p.1))
            (fun x => by simp [or_comm])]
        simp

theorem groupStep_preserves_id {m : List (Nat × ExerciseView)} {r : JoinedRow}
    (hm : ∀ p ∈ m, (p.2).id = p.1)
    (hr : r.exercise.id = r.workoutExercise.exerciseId) :
    ∀ p ∈ groupStep m r, (p.2).id = p.1 := by
  intro q hq
  simp only [groupStep] at hq
  have hm1 : ∀ p ∈ (if (lookupKey r.workoutExercise.exerciseId m).isSome = true then m
      else m ++ [(r.workoutExercise.exerciseId,
        ⟨r.exercise.id, r.exercise.name, []⟩)]), (p.2).id = p.1 := by
    intro p hp
    split at hp
    · exact hm p hp
    · rcases List.mem_append.mp hp with h | h
      · exact hm p h
      · simp only [List.mem_singleton] at h
        rw [h]
        exact hr
  cases hset : r.set with
  | none =>
      rw [hset] at hq
      exact hm1 q hq
  | some s =>
      rw [hset] at hq
      obtain ⟨q0, hq0, hup⟩ := List.mem_map.mp hq
      rw [← hup]
      by_cases hk : q0.1 = r.workoutExercise.exerciseId
      · rw [if_pos hk]
        exact hm1 q0 hq0
      · rw [if_neg hk]
        exact hm1 q0 hq0

theorem foldl_groupStep_id_eq_key (rows : List JoinedRow) :
    ∀ m : List (Nat × ExerciseView), (∀ p ∈ m, (p.2).id = p.1) →
      (∀ r ∈ rows, r.exercise.id = r.workoutExercise.exerciseId) →
      ∀ p ∈ rows.foldl groupStep m, (p.2).id = p.1 := by
  induction rows with
  | nil => intro m hm _ p hp; exact hm p hp
  | cons r rows ih =>
      intro m hm hcons p hp
      exact ih (groupStep m r)
        (groupStep_preserves_id hm (hcons r (by simp)))
        (fun r' hr' => hcons r' (by simp [hr'])) p hp

theorem setsOfKey_cons (r : JoinedRow) (rows : List JoinedRow) (k : Nat) :
    setsOfKey (r :: rows) k =
      if r.workoutExercise.exerciseId = k then
        (match r.set with
          | some s => mkSetView s :: setsOfKey rows k
          | none => setsOfKey rows k)
      else setsOfKey rows k := by
  by_cases hk : r.workoutExercise.exerciseId = k
  · rw [if_pos hk]
    cases hset : r.set with
    | none => simp [setsOfKey, List.filter_cons, hk, List.filterMap_cons, hset]
    | some s => simp [setsOfKey, List.filter_cons, hk, List.filterMap_cons, hset]
  · rw [if_neg hk]
    simp [setsOfKey, List.filter_cons, hk]

theorem lookupKey_map_setpush (k k0 : Nat) (sv : SetView)
    (m : List (Nat × ExerciseView)) :
    lookupKey k (m.map (fun p => if p.1 = k0 then
      (p.1, ⟨p.2.id, p.2.name, p.2.sets ++ [sv]⟩) else p)) =
      if k = k0 then (lookupKey k m).map
        (fun ev => ⟨ev.id, ev.name, ev.sets ++ [sv]⟩)
      else lookupKey k m :=
  lookupKey_map_update k k0 (fun ev => ⟨ev.id, ev.name, ev.sets ++ [sv]⟩) m

theorem lookupKey_groupStep (m : List (Nat × ExerciseView)) (r : JoinedRow) (k : Nat) :
    lookupKey k (groupStep m r) =
      if r.workoutExercise.exerciseId = k then
        match lookupKey k m, r.set with
        | some ev, none => some ev
        | some ev, some s => some ⟨ev.id, ev.name, ev.sets ++ [mkSetView s]⟩
        | none, none => some ⟨r.exercise.id, r.exercise.name, []⟩
        | none, some s => some ⟨r.exercise.id, r.exercise.name, [mkSetView s]⟩
      else lookupKey k m := by
  by_cases hk : r.workoutExercise.exerciseId = k
  · rw [if_pos hk]
    cases hlk : lookupKey k m with
    | some ev =>
        have hsome : (lookupKey r.workoutExercise.exerciseId m).isSome = true := by
          rw [hk, hlk]; rfl
        cases hset : r.set with
        | none => simp [groupStep, hset, hsome, hlk]
        | some s =>
            have hgs : groupStep m r = m.map (fun p =>
                if p.1 = r.workoutExercise.exerciseId then
                  (p.1, ⟨p.2.id, p.2.name, p.2.sets ++ [mkSetView s]⟩) else p) := by
              simp [groupStep, hset, hsome]
            rw [hgs, lookupKey_map_setpush, if_pos hk.symm, hlk]
            rfl
    | none =>
        have hnone : ¬ (lookupKey r.workoutExercise.exerciseId m).isSome = true := by
          rw [hk, hlk]; simp
        have hm1 : lookupKey k (m ++ [(r.workoutExercise.exerciseId,
            ⟨r.exercise.id, r.exercise.name, []⟩)]) =
            some ⟨r.exercise.id, r.exercise.name, []⟩ := by
          rw [lookupKey_append, hlk, lookupKey_cons, if_pos hk]
        cases hset : r.set with
        | none =>
            have hgs : groupStep m r = m ++ [(r.workoutExercise.exerciseId,
                ⟨r.exercise.id, r.exercise.name, []⟩)] := by
              simp [groupStep, hset, hnone]
            rw [hgs]
            exact hm1
        | some s =>
            have hgs : groupStep m r = (m ++ [(r.workoutExercise.exerciseId,
                (⟨r.exercise.id, r.exercise.name, []⟩ : ExerciseView))]).map (fun p =>
                  if p.1 = r.workoutExercise.exerciseId then
                    (p.1, (⟨p.2.id, p.2.name, p.2.sets ++ [mkSetView s]⟩ : ExerciseView))
                  else p) := by
              simp only [groupStep, hset]
              rw [if_neg hnone]
            rw [hgs, lookupKey_map_setpush, if_pos hk.symm, hm1]
            rfl
  · rw [if_neg hk]
    have hm1 : lookupKey k (if (lookupKey r.workoutExercise.exerciseId m).isSome = true
        then m else m ++ [(r.workoutExercise.exerciseId,
          ⟨r.exercise.id, r.exercise.name, []⟩)]) = lookupKey k m := by
      split
      · rfl
      · rw [lookupKey_append, lookupKey_cons, if_neg hk]
        cases lookupKey k m <;> rfl
    cases hset : r.set with
    | none =>
        simp only [groupStep, hset]
        exact hm1
    | some s =>
        simp only [groupStep, hset]
        rw [lookupKey_map_setpush, if_neg (fun hc => hk hc.symm), hm1]

theorem lookupKey_foldl_groupStep (rows : List JoinedRow) :
    ∀ (m : List (Nat × ExerciseView)) (k : Nat),
      lookupKey k (rows.foldl groupStep m) =
        match lookupKey k m with
        | some ev => some ⟨ev.id, ev.name, ev.sets ++ setsOfKey rows k⟩
        | none =>
            match rows.find? (fun r => decide (r.workoutExercise.exerciseId = k)) with
            | some r0 => some ⟨r0.exercise.id, r0.exercise.name, setsOfKey rows k⟩
            | none => none := by
  induction rows with
  | nil =>
      intro m k
      simp only [List.foldl_nil, setsOfKey, List.filter_nil, List.filterMap_nil,
        List.map_nil, List.append_nil, List.find?_nil]
      cases hlk : lookupKey k m with
      | none => rfl
      | some ev =>
          cases ev
          rfl
  | cons r rows ih =>
      intro m k
      rw [List.foldl_cons, ih (groupStep m r) k, lookupKey_groupStep, setsOfKey_cons]
      by_cases hk : r.workoutExercise.exerciseId = k
      · rw [if_pos hk, if_pos hk]
        have hfind : (r :: rows).find?
            (fun r => decide (r.workoutExercise.exerciseId = k)) = some r :=
          List.find?_cons_of_pos _ (by simp [hk])
        rw [hfind]
        cases hlk : lookupKey k m with
        | some ev =>
            cases hset : r.set with
            | none => rfl
            | some s => simp
        | none =>
            cases hset : r.set with
            | none => simp
            | some s => simp
      · rw [if_neg hk, if_neg hk]
        have hfind : (r :: rows).find?
            (fun r => decide (r.workoutExercise.exerciseId = k)) =
            rows.find? (fun r => decide (r.workoutExercise.exerciseId = k)) :=
          List.find?_cons_of_neg _ (by simp [hk])
        rw [hfind]

theorem joinRows_consistent (db : Db) (wid : Nat) :
    ∀ r ∈ joinRows db wid, r.exercise.id = r.workoutExercise.exerciseId := by
  intro r hr
  simp only [joinRows] at hr
  obtain ⟨we, hwe, hr2⟩ := List.mem_flatMap.mp hr
  obtain ⟨e, he, hr3⟩ := List.mem_flatMap.mp hr2
  have he' := (List.mem_filter.mp he).2
  rcases hms : db.sets.filter (fun s => decide (s.workoutExerciseId = we.id))
    with _ | ⟨s0, ms'⟩
  · rw [hms] at hr3
    simp only [List.mem_singleton] at hr3
    rw [hr3]
    simpa using he'
  · rw [hms] at hr3
    obtain ⟨s, hs, hrr⟩ := List.mem_map.mp hr3
    rw [← hrr]
    simpa using he'

theorem pairwise_setNumber_asc (l : List SetView) :
    List.Pairwise (fun a b => a.setNumber ≤ b.setNumber)
      (l.insertionSort (fun a b => a.setNumber ≤ b.setNumber)) := by
  haveI : IsTotal SetView (fun a b => a.setNumber ≤ b.setNumber) :=
    ⟨fun a b => le_total _ _⟩
  haveI : IsTrans SetView (fun a b => a.setNumber ≤ b.setNumber) :=
    ⟨fun a b c => le_trans⟩
  exact List.sorted_insertionSort _ l

/-- CLAIM C5: for the flat joined rows of any workout, the grouping in
`getWorkoutsByDate` produces exactly one exercise entry per distinct
`exerciseId` (no duplicates, one entry for each id occurring in the rows —
so an exercise row present only through the left join, with no
matching set, still appears), and each entry's set sequence is exactly the
rows' non-null sets for that id sorted by `setNumber` ascending — a
left-joined row with no set contributes nothing, and an exercise with zero
sets keeps an empty sequence. -/
theorem c5_grouping_no_dups_no_null_sets_sorted :
    ∀ db wid,
      ((groupRows (joinRows db wid)).map (fun ev => ev.id)).Nodup ∧
      (∀ k, k ∈ (groupRows (joinRows db wid)).map (fun ev => ev.id) ↔
        ∃ r ∈ joinRows db wid, r.workoutExercise.exerciseId = k) ∧
      (∀ ev ∈ groupRows (joinRows db wid),
        ev.sets = (setsOfKey (joinRows db wid) ev.id).insertionSort
          (fun a b => a.setNumber ≤ b.setNumber)) ∧
      (∀ ev ∈ groupRows (joinRows db wid),
        List.Pairwise (fun a b => a.setNumber ≤ b.setNumber) ev.sets) := by
  intro db wid
  have hcons := joinRows_consistent db wid
  have hkeys : ((joinRows db wid).foldl groupStep []).map (fun p => p.1)
      = newKeys [] (joinRows db wid) := by
    simpa using keys_foldl_groupStep (joinRows db wid) []
  have hknd : (((joinRows db wid).foldl groupStep []).map (fun p => p.1)).Nodup := by
    rw [hkeys]
    exact (newKeys_nodup_and_fresh (joinRows db wid) []).1
  have hinv : ∀ p ∈ (joinRows db wid).foldl groupStep [], (p.2).id = p.1 :=
    foldl_groupStep_id_eq_key (joinRows db wid) [] (by simp) hcons
  have hids : (groupRows (joinRows db wid)).map (fun ev => ev.id) =
      ((joinRows db wid).foldl groupStep []).map (fun p => p.1) := by
    simp only [groupRows, List.map_map]
    apply List.map_congr_left
    intro p hp
    exact hinv p hp
  have hentry : ∀ ev ∈ groupRows (joinRows db wid),
      ∃ p ∈ (joinRows db wid).foldl groupStep [],
        ev = ⟨(p.2).id, (p.2).name, (p.2).sets.insertionSort
          (fun a b => a.setNumber ≤ b.setNumber)⟩ ∧
        (p.2).sets = setsOfKey (joinRows db wid) p.1 := by
    intro ev hev
    simp only [groupRows, List.map_map] at hev
    obtain ⟨p, hp, hpe⟩ := List.mem_map.mp hev
    refine ⟨p, hp, hpe.symm, ?_⟩
    have hmem : (p.1, p.2) ∈ (joinRows db wid).foldl groupStep [] := by
      simpa using hp
    have hlk : lookupKey p.1 ((joinRows db wid).foldl groupStep []) = some p.2 :=
      lookupKey_eq_some_of_mem_nodup hknd hmem
    rw [lookupKey_foldl_groupStep] at hlk
    have hred : lookupKey p.1 ([] : List (Nat × ExerciseView)) = none := rfl
    rw [hred] at hlk
    cases hfind : (joinRows db wid).find?
        (fun r => decide (r.workoutExercise.exerciseId = p.1)) with
    | none =>
        rw [hfind] at hlk
        simp at hlk
    | some r0 =>
        rw [hfind] at hlk
        simp only [Option.some.injEq] at hlk
        rw [← hlk]
  refine ⟨?_, ?_, ?_, ?_⟩
  · rw [hids]
    exact hknd
  · intro k
    rw [hids, hkeys, mem_newKeys]
    simp
  · intro ev hev
    obtain ⟨p, hp, hpe, hsets⟩ := hentry ev hev
    rw [hpe]
    simp only
    rw [hsets, hinv p hp]
  · intro ev hev
    obtain ⟨p, hp, hpe, -⟩ := hentry ev hev
    rw [hpe]
    exact pairwise_setNumber_asc _

/-! ## Claim C7: schema validation before storage -/

set_option maxRecDepth 4000 in
/-- CLAIM C7 (counterexample to the claim as stated): the dashboard
quick-create write path performs no schema validation — called with a valid
date and a 150-character name, which the form schema rejects with the
at-most-100-characters message, it reaches storage and persists the
over-long name (the `text` column is unbounded), succeeding instead of
returning a structured validation error. -/
theorem c7_counterexample_quick_create_skips_validation :
    overlongName.length = 150 ∧
    zodParseCreate ⟨overlongName, "2025-09-01", none, none⟩
      = .error "String must contain at most 100 character(s)" ∧
    LibActions.createWorkout (some "u1") "2025-09-01" (some overlongName) 7
        ⟨[], [], [], []⟩
      = .ok (⟨1, "u1", "2025-09-01", some overlongName, none, none, 7, 7⟩,
        ⟨[⟨1, "u1", "2025-09-01", some overlongName, none, none, 7, 7⟩],
          [], [], []⟩) := by
  refine ⟨by decide, by decide, ?_⟩
  have hne : overlongName ≠ "" := by decide
  simp only [LibActions.createWorkout, nextWorkoutId, if_neg hne]
  rfl

/-- CLAIM C7 (amended): on the form-based action paths, schema validation
runs before any storage access and before the ownership-scoped helper:
whenever a schema rejects its input, the corresponding action returns the
first violated rule's message as a structured error and the database is
returned unchanged (for any caller identity, present or not). -/
theorem c7_validation_before_storage :
    ∀ tz auth now db cinput uinput dinput cmsg umsg dmsg,
      zodParseCreate cinput = .error cmsg →
      zodParseUpdate uinput = .error umsg →
      zodParseDelete dinput = .error dmsg →
      createWorkoutAction tz auth cinput now db = (.err cmsg, db) ∧
      updateWorkoutAction tz auth uinput db = (.err umsg, db) ∧
      deleteWorkoutAction auth dinput db = (.err dmsg, db) := by
  intro tz auth now db cinput uinput dinput cmsg umsg dmsg hc hu hd
  refine ⟨?_, ?_, ?_⟩
  · simp [createWorkoutAction, hc]
  · simp [updateWorkoutAction, hu]
  · simp [deleteWorkoutAction, hd]

/-- CLAIM C7 witness: empty names and a non-positive id are rejected with
the schemas' first messages and storage is untouched. -/
theorem c7_witness :
    zodParseCreate ⟨"", "2025-09-01", none, none⟩
        = .error "Workout name is required" ∧
    createWorkoutAction 0 (some "u1") ⟨"", "2025-09-01", none, none⟩ 7
        ⟨[], [], [], []⟩
      = (.err "Workout name is required", ⟨[], [], [], []⟩) ∧
    updateWorkoutAction 0 (some "u1") ⟨5, "", "2025-09-01", none, none⟩
        ⟨[], [], [], []⟩
      = (.err "Workout name is required", ⟨[], [], [], []⟩) ∧
    deleteWorkoutAction (some "u1") ⟨0⟩ ⟨[], [], [], []⟩
      = (.err "Number must be greater than 0", ⟨[], [], [], []⟩) :=
  ⟨by decide,
    (c7_validation_before_storage 0 (some "u1") 7 ⟨[], [], [], []⟩
      ⟨"", "2025-09-01", none, none⟩ ⟨5, "", "2025-09-01", none, none⟩ ⟨0⟩
      "Workout name is required" "Workout name is required"
      "Number must be greater than 0"
      (by decide) (by decide) (by decide)).1,
    (c7_validation_before_storage 0 (some "u1") 7 ⟨[], [], [], []⟩
      ⟨"", "2025-09-01", none, none⟩ ⟨5, "", "2025-09-01", none, none⟩ ⟨0⟩
      "Workout name is required" "Workout name is required"
      "Number must be greater than 0"
      (by decide) (by decide) (by decide)).2.1,
    (c7_validation_before_storage 0 (some "u1") 7 ⟨[], [], [], []⟩
      ⟨"", "2025-09-01", none, none⟩ ⟨5, "", "2025-09-01", none, none⟩ ⟨0⟩
      "Workout name is required" "Workout name is required"
      "Number must be greater than 0"
      (by decide) (by decide) (by decide)).2.2⟩

/-! ## Claim C6: month date list — range, distinctness, order -/

theorem char_toNat_inj {a b : Char} (h : a.toNat = b.toNat) : a = b := by
  have hv : a.val.toNat = b.val.toNat := h
  exact Char.eq_of_val_eq (UInt32.toNat.inj hv)

theorem digit_bounds {c : Char} (h : c.isDigit = true) :
    48 ≤ c.toNat ∧ c.toNat ≤ 57 := by
  simp only [Char.isDigit, Bool.and_eq_true, decide_eq_true_eq] at h
  exact h

theorem digitsToNat_foldl_acc (l : List Char) : ∀ a : Nat,
    l.foldl (fun a c => a * 10 + (c.toNat - 48)) a
      = a * 10 ^ l.length + digitsToNat l := by
  induction l with
  | nil => intro a; simp [digitsToNat]
  | cons c t ih =>
      intro a
      have h1 : digitsToNat (c :: t)
          = (c.toNat - 48) * 10 ^ t.length + digitsToNat t := by
        show t.foldl _ (0 * 10 + (c.toNat - 48)) = _
        rw [ih]
        ring_nf
      show t.foldl _ (a * 10 + (c.toNat - 48)) = _
      rw [ih, h1]
      simp only [List.length_cons, Nat.pow_succ]
      ring

theorem digitsToNat_cons (c : Char) (l : List Char) :
    digitsToNat (c :: l) = (c.toNat - 48) * 10 ^ l.length + digitsToNat l := by
  show l.foldl _ (0 * 10 + (c.toNat - 48)) = _
  rw [digitsToNat_foldl_acc]
  ring_nf

theorem digitsToNat_lt_pow {l : List Char} (h : l.all Char.isDigit = true) :
    digitsToNat l < 10 ^ l.length := by
  induction l with
  | nil => simp [digitsToNat]
  | cons c t ih =>
      simp only [List.all_cons, Bool.and_eq_true] at h
      have hc := digit_bounds h.1
      have ht := ih h.2
      rw [digitsToNat_cons]
      have hcv : c.toNat - 48 ≤ 9 := by omega
      calc (c.toNat - 48) * 10 ^ t.length + digitsToNat t
          < (c.toNat - 48) * 10 ^ t.length + 10 ^ t.length := by omega
        _ = (c.toNat - 48 + 1) * 10 ^ t.length := by ring
        _ ≤ 10 * 10 ^ t.length := by
            apply Nat.mul_le_mul_right
            omega
        _ = 10 ^ (t.length + 1) := by ring
        _ = 10 ^ (c :: t).length := by simp

theorem lexLe_digits_eq_decide_le : ∀ (a b : List Char),
    a.all Char.isDigit = true → b.all Char.isDigit = true →
    a.length = b.length →
    lexLe a b = decide (digitsToNat a ≤ digitsToNat b) := by
  intro a
  induction a with
  | nil =>
      intro b _ _ hlen
      cases b with
      | nil => simp [lexLe, digitsToNat]
      | cons c t => simp at hlen
  | cons c as ih =>
      intro b ha hb hlen
      cases b with
      | nil => simp at hlen
      | cons c' bs =>
          simp only [List.all_cons, Bool.and_eq_true] at ha hb
          simp only [List.length_cons, Nat.succ.injEq] at hlen
          have hbnd1 := digit_bounds ha.1
          have hbnd2 := digit_bounds hb.1
          have hva := digitsToNat_lt_pow ha.2
          have hvb := digitsToNat_lt_pow hb.2
          rw [← hlen] at hvb
          rw [digitsToNat_cons, digitsToNat_cons]
          have hP : (10 : Nat) ^ bs.length = 10 ^ as.length := by rw [hlen]
          rw [hP]
          simp only [lexLe]
          by_cases h1 : c.toNat < c'.toNat
          · rw [if_pos h1]
            have hle : (c.toNat - 48) * 10 ^ as.length + digitsToNat as
                ≤ (c'.toNat - 48) * 10 ^ as.length + digitsToNat bs := by
              have hstep : c.toNat - 48 + 1 ≤ c'.toNat - 48 := by omega
              apply le_of_lt
              calc (c.toNat - 48) * 10 ^ as.length + digitsToNat as
                  < (c.toNat - 48) * 10 ^ as.length + 10 ^ as.length := by omega
                _ = (c.toNat - 48 + 1) * 10 ^ as.length := by ring
                _ ≤ (c'.toNat - 48) * 10 ^ as.length :=
                    Nat.mul_le_mul_right _ hstep
                _ ≤ (c'.toNat - 48) * 10 ^ as.length + digitsToNat bs := by omega
            simp [hle]
          · by_cases h2 : c'.toNat < c.toNat
            · rw [if_neg h1, if_pos h2]
              have hlt : (c'.toNat - 48) * 10 ^ as.length + digitsToNat bs
                  < (c.toNat - 48) * 10 ^ as.length + digitsToNat as := by
                have hstep : c'.toNat - 48 + 1 ≤ c.toNat - 48 := by omega
                calc (c'.toNat - 48) * 10 ^ as.length + digitsToNat bs
                    < (c'.toNat - 48) * 10 ^ as.length + 10 ^ as.length := by omega
                  _ = (c'.toNat - 48 + 1) * 10 ^ as.length := by ring
                  _ ≤ (c.toNat - 48) * 10 ^ as.length :=
                      Nat.mul_le_mul_right _ hstep
                  _ ≤ (c.toNat - 48) * 10 ^ as.length + digitsToNat as := by omega
              have hnot : ¬ ((c.toNat - 48) * 10 ^ as.length + digitsToNat as
                  ≤ (c'.toNat - 48) * 10 ^ as.length + digitsToNat bs) := by omega
              simp [hnot]
            · have hceq : c.toNat = c'.toNat := by omega
              rw [if_neg h1, if_neg h2, ih bs ha.2 hb.2 hlen, hceq]
              have hiff : digitsToNat as ≤ digitsToNat bs ↔
                  (c'.toNat - 48) * 10 ^ as.length + digitsToNat as
                    ≤ (c'.toNat - 48) * 10 ^ as.length + digitsToNat bs := by
                omega
              by_cases h3 : digitsToNat as ≤ digitsToNat bs
              · simp [h3, hiff.mp h3]
              · simp [h3, fun hc => h3 (hiff.mpr hc)]

theorem natToDigitsAux_small {fuel n : Nat} (hf : 0 < fuel) (hn : n < 10) :
    natToDigitsAux fuel n = [digitChar n] := by
  cases fuel with
  | zero => omega
  | succ f => simp [natToDigitsAux, hn]

theorem natToDigitsAux_fuel_congr : ∀ f1 : Nat, ∀ f2 n : Nat, 0 < f1 → 0 < f2 →
    n < 10 ^ f1 → n < 10 ^ f2 → natToDigitsAux f1 n = natToDigitsAux f2 n := by
  intro f1
  induction f1 with
  | zero => intro f2 n h1 _ _ _; omega
  | succ f1 ih =>
      intro f2 n _ h2 hn1 hn2
      cases f2 with
      | zero => omega
      | succ f2 =>
          by_cases hn : n < 10
          · simp [natToDigitsAux, hn]
          · simp only [natToDigitsAux, hn, if_false]
            have hf1 : 0 < f1 := by
              by_contra hc
              have : f1 = 0 := by omega
              rw [this] at hn1
              simp at hn1
              omega
            have hf2 : 0 < f2 := by
              by_contra hc
              have : f2 = 0 := by omega
              rw [this] at hn2
              simp at hn2
              omega
            have hd1 : n / 10 < 10 ^ f1 := by
              rw [Nat.div_lt_iff_lt_mul (by norm_num)]
              calc n < 10 ^ (f1 + 1) := hn1
                _ = 10 ^ f1 * 10 := by ring
            have hd2 : n / 10 < 10 ^ f2 := by
              rw [Nat.div_lt_iff_lt_mul (by norm_num)]
              calc n < 10 ^ (f2 + 1) := hn2
                _ = 10 ^ f2 * 10 := by ring
            rw [ih f2 (n / 10) hf1 hf2 hd1 hd2]

theorem natToDigits_length4 {n : Nat} (h1 : 1000 ≤ n) (h2 : n ≤ 9999) :
    (natToDigits n).length = 4 := by
  have e1 : natToDigits n = natToDigitsAux 4 n := by
    apply natToDigitsAux_fuel_congr (n + 1) 4 n (by omega) (by omega)
    · exact lt_of_lt_of_le (Nat.lt_pow_self (by norm_num) n)
        (Nat.pow_le_pow_right (by norm_num) (Nat.le_succ n))
    · norm_num
      omega
  rw [e1]
  have h10 : ¬ n < 10 := by omega
  have h10b : ¬ n / 10 < 10 := by omega
  have h10c : ¬ n / 10 / 10 < 10 := by omega
  have h10d : n / 10 / 10 / 10 < 10 := by omega
  simp [natToDigitsAux, h10, h10b, h10c, h10d]

theorem padStart2_natToDigits_length {m : Nat} (h : m ≤ 99) :
    (padStart2 (natToDigits m)).length = 2 := by
  by_cases h10 : m < 10
  · rw [natToDigits, natToDigitsAux_small (by omega) h10]
    simp [padStart2]
  · have e1 : natToDigits m = natToDigitsAux m (m / 10) ++ [digitChar (m % 10)] := by
      show natToDigitsAux (m + 1) m = _
      simp [natToDigitsAux, h10]
    rw [e1, natToDigitsAux_small (by omega) (by omega)]
    simp [padStart2]

theorem lexLe_cons_same (c : Char) (x y : List Char) :
    lexLe (c :: x) (c :: y) = lexLe x y := by
  simp [lexLe]

theorem lexLe_append : ∀ (a : List Char), ∀ (b x y : List Char),
    a.length = b.length →
    lexLe (a ++ x) (b ++ y) = (if a = b then lexLe x y else lexLe a b) := by
  intro a
  induction a with
  | nil =>
      intro b x y hlen
      cases b with
      | nil => simp [lexLe]
      | cons => simp at hlen
  | cons c as ih =>
      intro b x y hlen
      cases b with
      | nil => simp at hlen
      | cons c' bs =>
          simp only [List.length_cons, Nat.succ.injEq] at hlen
          simp only [List.cons_append, lexLe]
          by_cases hc1 : c.toNat < c'.toNat
          · have hne : ¬ (c :: as = c' :: bs) := by
              intro he
              injection he with he1 _
              rw [he1] at hc1
              omega
            simp [hc1, hne]
          · by_cases hc2 : c'.toNat < c.toNat
            · have hne : ¬ (c :: as = c' :: bs) := by
                intro he
                injection he with he1 _
                rw [he1] at hc2
                omega
              simp [hc1, hc2, hne]
            · have hc : c = c' := char_toNat_inj (by omega)
              subst hc
              rw [if_neg hc1, if_neg hc2]
              have ih' : lexLe (as.append x) (bs.append y) =
                  if as = bs then lexLe x y else lexLe as bs := ih bs x y hlen
              rw [ih']
              by_cases h3 : as = bs
              · simp [h3]
              · have hne : ¬ (c :: as = c :: bs) := by
                  intro he
                  injection he with _ he2
                  exact h3 he2
                simp [h3, hne, lexLe, hc1, hc2]

theorem sqlLe_format_eq_dateLe (c1 c2 : CivilDate)
    (h1 : validCivilDate c1) (h2 : validCivilDate c2)
    (hy1 : 1000 ≤ c1.year) (hy1b : c1.year ≤ 9999)
    (hy2 : 1000 ≤ c2.year) (hy2b : c2.year ≤ 9999) :
    sqlLe (formatDateForDb c1) (formatDateForDb c2) = dateLe c1 c2 := by
  obtain ⟨y1, m1, d1⟩ := c1
  obtain ⟨y2, m2, d2⟩ := c2
  obtain ⟨hm1a, hm1b, hd1a, hd1b⟩ := h1
  obtain ⟨hm2a, hm2b, hd2a, hd2b⟩ := h2
  simp only at hm1a hm1b hd1a hd1b hm2a hm2b hd2a hd2b hy1 hy1b hy2 hy2b
  have hdm1 : daysInMonth y1 m1 ≤ 31 := by
    unfold daysInMonth
    split
    · split <;> omega
    · split <;> omega
  have hdm2 : daysInMonth y2 m2 ≤ 31 := by
    unfold daysInMonth
    split
    · split <;> omega
    · split <;> omega
  have hA1 : jsIntToDigits y1 = natToDigits y1.toNat := by
    simp [jsIntToDigits, show ¬ y1 < 0 by omega]
  have hA2 : jsIntToDigits y2 = natToDigits y2.toNat := by
    simp [jsIntToDigits, show ¬ y2 < 0 by omega]
  have hlist1 : (formatDateForDb ⟨y1, m1, d1⟩).toList =
      natToDigits y1.toNat ++ '-' ::
        (padStart2 (natToDigits m1) ++ '-' :: padStart2 (natToDigits d1)) := by
    show jsIntToDigits y1 ++ '-' :: padStart2 (natToDigits m1)
      ++ '-' :: padStart2 (natToDigits d1) = _
    rw [hA1]
    simp
  have hlist2 : (formatDateForDb ⟨y2, m2, d2⟩).toList =
      natToDigits y2.toNat ++ '-' ::
        (padStart2 (natToDigits m2) ++ '-' :: padStart2 (natToDigits d2)) := by
    show jsIntToDigits y2 ++ '-' :: padStart2 (natToDigits m2)
      ++ '-' :: padStart2 (natToDigits d2) = _
    rw [hA2]
    simp
  have hlenY : (natToDigits y1.toNat).length = (natToDigits y2.toNat).length := by
    rw [natToDigits_length4 (by omega) (by omega),
      natToDigits_length4 (by omega) (by omega)]
  have hlenM : (padStart2 (natToDigits m1)).length
      = (padStart2 (natToDigits m2)).length := by
    rw [padStart2_natToDigits_length (by omega),
      padStart2_natToDigits_length (by omega)]
  show lexLe (formatDateForDb ⟨y1, m1, d1⟩).toList
    (formatDateForDb ⟨y2, m2, d2⟩).toList = _
  rw [hlist1, hlist2, lexLe_append _ _ _ _ hlenY]
  by_cases hA : natToDigits y1.toNat = natToDigits y2.toNat
  · have hy : y1 = y2 := by
      have hv := congrArg digitsToNat hA
      rw [digitsToNat_natToDigits, digitsToNat_natToDigits] at hv
      omega
    rw [if_pos hA, lexLe_cons_same, lexLe_append _ _ _ _ hlenM]
    by_cases hB : padStart2 (natToDigits m1) = padStart2 (natToDigits m2)
    · have hm : m1 = m2 := by
        have hv := congrArg digitsToNat hB
        rw [digitsToNat_padStart2, digitsToNat_padStart2,
          digitsToNat_natToDigits, digitsToNat_natToDigits] at hv
        exact hv
      rw [if_pos hB, lexLe_cons_same,
        lexLe_digits_eq_decide_le _ _
          (padStart2_all_isDigit (natToDigits_all_isDigit _))
          (padStart2_all_isDigit (natToDigits_all_isDigit _))
          (by rw [padStart2_natToDigits_length (by omega),
            padStart2_natToDigits_length (by omega)]),
        digitsToNat_padStart2, digitsToNat_padStart2,
        digitsToNat_natToDigits, digitsToNat_natToDigits]
      subst hy
      subst hm
      simp [dateLe]
    · have hm : ¬ m1 = m2 := fun he => hB (by rw [he])
      rw [if_neg hB,
        lexLe_digits_eq_decide_le _ _
          (padStart2_all_isDigit (natToDigits_all_isDigit _))
          (padStart2_all_isDigit (natToDigits_all_isDigit _)) hlenM,
        digitsToNat_padStart2, digitsToNat_padStart2,
        digitsToNat_natToDigits, digitsToNat_natToDigits]
      subst hy
      by_cases hmlt : m1 < m2
      · simp [dateLe, hmlt]
        omega
      · have hmgt : m2 < m1 := by omega
        have hnle : ¬ m1 ≤ m2 := by omega
        simp [dateLe, hmlt, hmgt, hnle]
  · have hy : ¬ y1 = y2 := fun he => hA (by rw [he])
    rw [if_neg hA,
      lexLe_digits_eq_decide_le _ _ (natToDigits_all_isDigit _)
        (natToDigits_all_isDigit _) hlenY,
      digitsToNat_natToDigits, digitsToNat_natToDigits]
    by_cases hylt : y1 < y2
    · simp [dateLe, hylt]
      omega
    · have hygt : y2 < y1 := by omega
      have hnle : ¬ y1.toNat ≤ y2.toNat := by omega
      simp [dateLe, hylt, hygt, hnle]

theorem daysInMonth_pos (y : Int) (m : Nat) : 1 ≤ daysInMonth y m := by
  unfold daysInMonth
  split
  · split <;> omega
  · split <;> omega

theorem addDays_neg_one (c : CivilDate) : addDays c (-1) = prevDay c := by
  simp [addDays]

theorem jsDateFieldsCtor_month_start (year month : Int) (hy : 100 ≤ year)
    (hm1 : 0 ≤ month) (hm2 : month ≤ 11) :
    jsDateFieldsCtor year month 1 = ⟨year, month.toNat + 1, 1⟩ := by
  have hcast : ((month.toNat + 1 : Nat) : Int) - 1 = month := by omega
  have hmain := jsDateFieldsCtor_of_valid year (month.toNat + 1) 1 hy (by omega)
    (by omega) (by omega) (daysInMonth_pos _ _)
  rw [hcast] at hmain
  simpa using hmain

theorem jsDateFieldsCtor_month_end (year month : Int) (hy : 100 ≤ year)
    (hm1 : 0 ≤ month) (hm2 : month ≤ 11) :
    jsDateFieldsCtor year (month + 1) 0
      = ⟨year, month.toNat + 1, daysInMonth year (month.toNat + 1)⟩ := by
  unfold jsDateFieldsCtor
  have hq : ¬ (0 ≤ year ∧ year ≤ 99) := by omega
  by_cases hm11 : month ≤ 10
  · have hcast : month + 1 = ((month.toNat + 1 : Nat) : Int) := by omega
    simp only [hq, if_false, hcast, int_fdiv_ofNat, int_fmod_ofNat]
    rw [Nat.div_eq_of_lt (by omega), Nat.mod_eq_of_lt (by omega)]
    simp only [Int.toNat_ofNat, Nat.cast_zero, add_zero]
    have hstep : (0 : Int) - 1 = -1 := by norm_num
    rw [hstep, addDays_neg_one]
    unfold prevDay
    simp only
    rw [if_neg (by omega), if_pos (by omega : 1 < month.toNat + 1 + 1)]
    congr 1
  · have hm11' : month = 11 := by omega
    subst hm11'
    have h12 : (11 : Int) + 1 = ((12 : Nat) : Int) := by norm_num
    simp only [hq, if_false, h12, int_fdiv_ofNat, int_fmod_ofNat]
    norm_num
    rw [addDays_neg_one]
    unfold prevDay
    simp only
    rw [if_neg (by omega), if_neg (by omega)]
    have : daysInMonth (year + 1 - 1) 12 = 31 := by simp [daysInMonth]
    simp [daysInMonth]

theorem dateLe_month_range (year : Int) (m0 : Nat) (c : CivilDate)
    (hval : validCivilDate c) :
    (dateLe ⟨year, m0, 1⟩ c = true ∧
        dateLe c ⟨year, m0, daysInMonth year m0⟩ = true)
      ↔ (c.year = year ∧ c.month = m0) := by
  obtain ⟨y, m, d⟩ := c
  obtain ⟨hma, hmb, hda, hdb⟩ := hval
  simp only at hma hmb hda hdb
  simp only [dateLe]
  constructor
  · rintro ⟨ha, hb⟩
    split_ifs at ha hb <;> simp_all <;> omega
  · rintro ⟨hy, hm⟩
    subst hy
    subst hm
    simp only [lt_irrefl, if_false]
    constructor
    · simp [hda]
    · simp
      omega

theorem mem_dedupFirst_go : ∀ (l seen : List String) (x : String),
    x ∈ dedupFirst.go l seen ↔ (x ∈ l ∧ x ∉ seen) := by
  intro l
  induction l with
  | nil => intro seen x; simp [dedupFirst.go]
  | cons a t ih =>
      intro seen x
      simp only [dedupFirst.go]
      by_cases ha : a ∈ seen
      · rw [if_pos ha, ih]
        constructor
        · rintro ⟨hx, hns⟩
          exact ⟨by simp [hx], hns⟩
        · rintro ⟨hx, hns⟩
          rcases List.mem_cons.mp hx with he | he
          · exfalso
            rw [he] at hns
            exact hns ha
          · exact ⟨he, hns⟩
      · rw [if_neg ha]
        by_cases hx : x = a
        · subst hx
          simp [ha]
        · constructor
          · intro hmem
            rcases List.mem_cons.mp hmem with he | he
            · exact absurd he hx
            · obtain ⟨ht, hns⟩ := (ih _ _).mp he
              refine ⟨by simp [ht], ?_⟩
              intro hc
              exact hns (by simp [hc])
          · rintro ⟨hmem, hns⟩
            apply List.mem_cons.mpr
            right
            apply (ih _ _).mpr
            rcases List.mem_cons.mp hmem with he | he
            · exact absurd he hx
            · refine ⟨he, ?_⟩
              intro hc
              rcases List.mem_cons.mp hc with he2 | he2
              · exact hx he2
              · exact hns he2

theorem mem_dedupFirst (l : List String) (x : String) :
    x ∈ dedupFirst l ↔ x ∈ l := by
  rw [dedupFirst, mem_dedupFirst_go]
  simp

theorem nodup_dedupFirst_go : ∀ (l seen : List String),
    (dedupFirst.go l seen).Nodup := by
  intro l
  induction l with
  | nil => intro seen; simp [dedupFirst.go]
  | cons a t ih =>
      intro seen
      simp only [dedupFirst.go]
      by_cases ha : a ∈ seen
      · rw [if_pos ha]; exact ih seen
      · rw [if_neg ha]
        rw [List.nodup_cons]
        refine ⟨?_, ih _⟩
        intro hc
        have := (mem_dedupFirst_go t (a :: seen) a).mp hc
        exact this.2 (by simp)

theorem nodup_dedupFirst (l : List String) : (dedupFirst l).Nodup :=
  nodup_dedupFirst_go l []

theorem daysInMonth_le_31 (y : Int) (m : Nat) : daysInMonth y m ≤ 31 := by
  unfold daysInMonth
  split
  · split <;> omega
  · split <;> omega

/-- CLAIM C6 (amended): for a well-formed database, a four-digit year and a
zero-based month index 0-11, `getWorkoutDatesForMonth` returns each date at
most once (no duplicates even when a date has several workouts), and the
returned dates are exactly the caller's workout dates lying in the inclusive
local range from the first to the last calendar day of that month.  (No
ordering is guaranteed: the query has no ORDER BY, so the dates come back in
first-occurrence row order, not necessarily ascending.) -/
theorem c6_month_dates_distinct_and_range :
    ∀ u year month db out,
      1000 ≤ year → year ≤ 9999 → 0 ≤ month → month ≤ 11 →
      dbDatesWellFormed db →
      getWorkoutDatesForMonth (some u) year month db = .ok out →
      out.Nodup ∧
      (∀ c : CivilDate, validCivilDate c → 1000 ≤ c.year → c.year ≤ 9999 →
        (some c ∈ out ↔
          ((∃ w ∈ db.workouts, w.userId = u ∧ w.date = formatDateForDb c) ∧
            c.year = year ∧ (c.month : Int) = month + 1))) := by
  intro u year month db out hy1 hy2 hm1 hm2 hwf hok
  simp only [getWorkoutDatesForMonth] at hok
  rw [jsDateFieldsCtor_month_start year month (by omega) hm1 hm2,
    jsDateFieldsCtor_month_end year month (by omega) hm1 hm2] at hok
  injection hok with hout
  have hstartvalid : validCivilDate ⟨year, month.toNat + 1, 1⟩ := by
    show 1 ≤ month.toNat + 1 ∧ month.toNat + 1 ≤ 12 ∧ 1 ≤ 1 ∧
      1 ≤ daysInMonth year (month.toNat + 1)
    exact ⟨by omega, by omega, le_refl 1, daysInMonth_pos _ _⟩
  have hendvalid : validCivilDate
      ⟨year, month.toNat + 1, daysInMonth year (month.toNat + 1)⟩ := by
    show 1 ≤ month.toNat + 1 ∧ month.toNat + 1 ≤ 12 ∧
      1 ≤ daysInMonth year (month.toNat + 1) ∧
      daysInMonth year (month.toNat + 1) ≤ daysInMonth year (month.toNat + 1)
    exact ⟨by omega, by omega, daysInMonth_pos _ _, le_refl _⟩
  have hpred : ∀ w ∈ db.workouts, ∀ cw : CivilDate, validCivilDate cw →
      1000 ≤ cw.year → cw.year ≤ 9999 → w.date = formatDateForDb cw →
      ((decide (w.userId = u)
        && sqlLe (formatDateForDb ⟨year, month.toNat + 1, 1⟩) w.date
        && sqlLe w.date (formatDateForDb
          ⟨year, month.toNat + 1, daysInMonth year (month.toNat + 1)⟩)) = true
        ↔ (w.userId = u ∧ cw.year = year ∧ cw.month = month.toNat + 1)) := by
    intro w hw cw hcv hcy1 hcy2 hdate
    rw [hdate,
      sqlLe_format_eq_dateLe _ cw hstartvalid hcv
        (by show (1000 : Int) ≤ year; omega) (by show year ≤ (9999 : Int); omega)
        hcy1 hcy2,
      sqlLe_format_eq_dateLe cw _ hcv hendvalid hcy1 hcy2
        (by show (1000 : Int) ≤ year; omega) (by show year ≤ (9999 : Int); omega)]
    simp only [Bool.and_eq_true, decide_eq_true_eq]
    constructor
    · rintro ⟨⟨hu, hd1⟩, hd2⟩
      exact ⟨hu, (dateLe_month_range year (month.toNat + 1) cw hcv).mp ⟨hd1, hd2⟩⟩
    · rintro ⟨hu, hyy, hmm⟩
      have hrange := (dateLe_month_range year (month.toNat + 1) cw hcv).mpr ⟨hyy, hmm⟩
      exact ⟨⟨hu, hrange.1⟩, hrange.2⟩
  have hparse : ∀ s ∈ dedupFirst ((db.workouts.filter (fun w => decide (w.userId = u)
        && sqlLe (formatDateForDb ⟨year, month.toNat + 1, 1⟩) w.date
        && sqlLe w.date (formatDateForDb
          ⟨year, month.toNat + 1, daysInMonth year (month.toNat + 1)⟩))).map
        (fun w => w.date)),
      ∃ cw : CivilDate, validCivilDate cw ∧ 1000 ≤ cw.year ∧ cw.year ≤ 9999 ∧
        s = formatDateForDb cw ∧ parseDateFromDb s = some cw ∧
        ∃ w ∈ db.workouts, w.userId = u ∧ w.date = s ∧
          cw.year = year ∧ cw.month = month.toNat + 1 := by
    intro s hs
    rw [mem_dedupFirst] at hs
    obtain ⟨w, hwf2, hws⟩ := List.mem_map.mp hs
    have hw := List.mem_filter.mp hwf2
    obtain ⟨cw, hcv, hcy1, hcy2, hdate⟩ := hwf w hw.1
    have hP := (hpred w hw.1 cw hcv hcy1 hcy2 hdate).mp hw.2
    refine ⟨cw, hcv, hcy1, hcy2, by rw [← hws, hdate], ?_, w, hw.1, hP.1,
      hws, hP.2.1, hP.2.2⟩
    rw [← hws, hdate]
    exact c1_parse_format_local_roundtrip cw hcv (by omega)
  constructor
  · rw [← hout]
    apply List.Nodup.map_on
    · intro s1 hs1 s2 hs2 hps
      obtain ⟨cw1, _, _, _, hf1, hp1, -⟩ := hparse s1 hs1
      obtain ⟨cw2, _, _, _, hf2, hp2, -⟩ := hparse s2 hs2
      rw [hp1, hp2] at hps
      rw [Option.some_inj] at hps
      rw [hf1, hf2, hps]
    · exact nodup_dedupFirst _
  · intro c hcv hcy1 hcy2
    rw [← hout]
    constructor
    · intro hmem
      obtain ⟨s, hs, hps⟩ := List.mem_map.mp hmem
      obtain ⟨cw, hcwv, hcw1, hcw2, hf, hp, w, hwm, hwu, hwd, hyy, hmm⟩ :=
        hparse s hs
      rw [hp, Option.some_inj] at hps
      subst hps
      refine ⟨⟨w, hwm, hwu, by rw [hwd, hf]⟩, hyy, by omega⟩
    · rintro ⟨⟨w, hwm, hwu, hwd⟩, hyy, hmm⟩
      have hmn : c.month = month.toNat + 1 := by omega
      have hP := (hpred w hwm c hcv hcy1 hcy2 hwd).mpr ⟨hwu, hyy, hmn⟩
      apply List.mem_map.mpr
      refine ⟨w.date, ?_, ?_⟩
      · rw [mem_dedupFirst]
        apply List.mem_map.mpr
        exact ⟨w, List.mem_filter.mpr ⟨hwm, hP⟩, rfl⟩
      · rw [hwd]
        exact c1_parse_format_local_roundtrip c hcv (by omega)

/-- CLAIM C6 (counterexample to the claim as stated): with the caller's
workouts stored on 2025-09-02 and then 2025-09-01, the September query
returns the dates in row order `[2025-09-02, 2025-09-01]` — the later date
first — because the query has no ORDER BY, so the "ascending order" part of
the claim fails. -/
theorem c6_counterexample_not_ascending :
    getWorkoutDatesForMonth (some "u") 2025 8
        ⟨[⟨1, "u", "2025-09-02", none, none, none, 0, 0⟩,
          ⟨2, "u", "2025-09-01", none, none, none, 0, 0⟩], [], [], []⟩
      = .ok [some ⟨2025, 9, 2⟩, some ⟨2025, 9, 1⟩] ∧
    dateLe ⟨2025, 9, 2⟩ ⟨2025, 9, 1⟩ = false := by
  decide

/-- CLAIM C6 witness: two workouts on 2025-09-15 and one on 2025-08-31 yield
the single September date 2025-09-15, exactly once. -/
theorem c6_witness :
    getWorkoutDatesForMonth (some "u") 2025 8
        ⟨[⟨1, "u", "2025-09-15", none, none, none, 0, 0⟩,
          ⟨2, "u", "2025-09-15", none, none, none, 1, 1⟩,
          ⟨3, "u", "2025-08-31", none, none, none, 2, 2⟩], [], [], []⟩
      = .ok [some ⟨2025, 9, 15⟩] ∧
    ([some ⟨2025, 9, 15⟩] : List (Option CivilDate)).Nodup ∧
    (some (⟨2025, 9, 15⟩ : CivilDate) ∈
        ([some ⟨2025, 9, 15⟩] : List (Option CivilDate)) ↔
      ((∃ w ∈ (⟨[⟨1, "u", "2025-09-15", none, none, none, 0, 0⟩,
          ⟨2, "u", "2025-09-15", none, none, none, 1, 1⟩,
          ⟨3, "u", "2025-08-31", none, none, none, 2, 2⟩], [], [], []⟩ : Db).workouts,
          w.userId = "u" ∧ w.date = formatDateForDb ⟨2025, 9, 15⟩) ∧
        (⟨2025, 9, 15⟩ : CivilDate).year = 2025 ∧
        (((⟨2025, 9, 15⟩ : CivilDate).month : Nat) : Int) = 8 + 1)) := by
  have hwf : dbDatesWellFormed
      ⟨[⟨1, "u", "2025-09-15", none, none, none, 0, 0⟩,
        ⟨2, "u", "2025-09-15", none, none, none, 1, 1⟩,
        ⟨3, "u", "2025-08-31", none, none, none, 2, 2⟩], [], [], []⟩ := by
    intro w hw
    rcases List.mem_cons.mp hw with h | hw2
    · exact ⟨⟨2025, 9, 15⟩, by decide, by decide, by decide, by rw [h]; decide⟩
    · rcases List.mem_cons.mp hw2 with h | hw3
      · exact ⟨⟨2025, 9, 15⟩, by decide, by decide, by decide, by rw [h]; decide⟩
      · rcases List.mem_cons.mp hw3 with h | hw4
        · exact ⟨⟨2025, 8, 31⟩, by decide, by decide, by decide, by rw [h]; decide⟩
        · simp at hw4
  have hmain := c6_month_dates_distinct_and_range "u" 2025 8
    ⟨[⟨1, "u", "2025-09-15", none, none, none, 0, 0⟩,
      ⟨2, "u", "2025-09-15", none, none, none, 1, 1⟩,
      ⟨3, "u", "2025-08-31", none, none, none, 2, 2⟩], [], [], []⟩
    [some ⟨2025, 9, 15⟩]
    (by norm_num) (by norm_num) (by norm_num) (by norm_num) hwf (by decide)
  exact ⟨by decide, hmain.1,
    hmain.2 ⟨2025, 9, 15⟩ (by decide) (by decide) (by decide)⟩

/-- CLAIM C5 witness: one workout with two exercises, one having three sets
stored out of order and the other having none, groups into exactly two
entries — the first with the three sets sorted by `setNumber`, the second
with an empty set sequence. -/
theorem c5_witness :
    groupRows (joinRows ⟨[],
        [⟨1, "Bench", none⟩, ⟨2, "Row", none⟩],
        [⟨10, 5, 1, 0, none⟩, ⟨11, 5, 2, 1, none⟩],
        [⟨100, 10, 2, false, none, 5, none, none⟩,
         ⟨101, 10, 1, false, none, 5, none, none⟩,
         ⟨102, 10, 3, false, none, 5, none, none⟩]⟩ 5)
      = [⟨1, "Bench", [⟨1, none, 5, none, false⟩, ⟨2, none, 5, none, false⟩,
          ⟨3, none, 5, none, false⟩]⟩, ⟨2, "Row", []⟩] ∧
    ((groupRows (joinRows ⟨[],
        [⟨1, "Bench", none⟩, ⟨2, "Row", none⟩],
        [⟨10, 5, 1, 0, none⟩, ⟨11, 5, 2, 1, none⟩],
        [⟨100, 10, 2, false, none, 5, none, none⟩,
         ⟨101, 10, 1, false, none, 5, none, none⟩,
         ⟨102, 10, 3, false, none, 5, none, none⟩]⟩ 5)).map
      (fun ev => ev.id)).Nodup :=
  ⟨by decide,
    (c5_grouping_no_dups_no_null_sets_sorted ⟨[],
      [⟨1, "Bench", none⟩, ⟨2, "Row", none⟩],
      [⟨10, 5, 1, 0, none⟩, ⟨11, 5, 2, 1, none⟩],
      [⟨100, 10, 2, false, none, 5, none, none⟩,
       ⟨101, 10, 1, false, none, 5, none, none⟩,
       ⟨102, 10, 3, false, none, 5, none, none⟩]⟩ 5).1⟩

/-- CLAIM C10 witness: quick-creating with the empty-string name persists the
literal fallback name. -/
theorem c10_witness :
    ∃ w dbNew,
      LibActions.createWorkout (some "u") "2025-09-01" (some "") 3
          ⟨[], [], [], []⟩ = .ok (w, dbNew) ∧
      dbNew.workouts = (⟨[], [], [], []⟩ : Db).workouts ++ [w] ∧
      ∃ n, w.name = some n ∧ n ≠ "" ∧
        ((some "" = (none : Option String) ∨ some "" = some "") →
          n = "Untitled Workout") ∧
        (∀ s, some "" = some s → s ≠ "" → n = s) :=
  c10_quick_create_persists_fallback_name "u" "2025-09-01" (some "") 3
    ⟨[], [], [], []⟩
